import Mathlib

/-!
Verification of the interactive asset-extraction and region-selection workflow
of the `MetadataExtractor` component (an AI metadata-extraction web tool).

The definitions below are a shallow embedding of the TypeScript source:

* `src/pages/MetadataExtractor.tsx` — the main component (upload gate,
  budget gate, page-by-page extraction pipeline, CSV export, region
  selection, lazy page rendering);
* the alternate variant of the same component (with `sortAssets`, a
  fit-to-width display scale and an `isGeneratingSelection` guard);
* the Gemini service module (`extractAssetsFromPage`,
  `generateMetadataForSelection`), treated as a black-box async function
  returning either descriptors or an error.

Numeric page coordinates (JS doubles) are embedded as rationals `ℚ`;
machine floats are never subtracted/divided in a way that can overflow in
the modelled ranges, so exact rational arithmetic is used.  Asynchronous
service calls are embedded as `Except String` values supplied by the
environment; React state updates become explicit state-passing functions.
-/

namespace AITools

/-- A rectangle in percentage units (0–100) relative to a page, as in the
`BoundingBox` type of `types.ts` (fields `x, y, width, height`). -/
structure BBox where
  x : ℚ
  y : ℚ
  width : ℚ
  height : ℚ
deriving DecidableEq, Repr

/-- A 2-D point in pixel units (e.g. `clientX`/`clientY` or page-relative
pixel coordinates). -/
structure Point where
  x : ℚ
  y : ℚ
deriving DecidableEq, Repr

/-- Result of `getBoundingClientRect()` for a page container element. -/
structure DomRect where
  left : ℚ
  top : ℚ
  width : ℚ
  height : ℚ
deriving DecidableEq, Repr

/-- An asset descriptor as returned by the metadata service for a page
(`Omit<ExtractedAsset, 'id' | 'pageNumber'>` in `geminiService`): the
fields of the `PAGE_METADATA_SCHEMA` / `SINGLE_ASSET_SCHEMA` responses.
`assetType` is one of the strings `Figure, Table, Image, Equation, Map,
Graph` (the TS `AssetType` string enum); `boundingBox` is absent in the
single-region schema. -/
structure AssetDesc where
  assetId : String
  assetType : String
  preview : String
  altText : String
  keywords : List String
  taxonomy : String
  boundingBox : Option BBox
deriving DecidableEq, Repr

/-- An `ExtractedAsset` record: a descriptor plus the process-unique `id`
(modelled as a `Nat` drawn from a fresh counter, standing for
`crypto.randomUUID()`) and the 1-based `pageNumber`. -/
structure Asset where
  id : Nat
  assetId : String
  assetType : String
  pageNumber : Nat
  preview : String
  altText : String
  keywords : List String
  taxonomy : String
  boundingBox : Option BBox
deriving DecidableEq, Repr

/-- `{...asset, id, pageNumber}` — attach a fresh id and the page number to
a service descriptor (extraction pipeline, `handleProcess`). -/
def mkAsset (d : AssetDesc) (page id : Nat) : Asset :=
  { id := id, assetId := d.assetId, assetType := d.assetType,
    pageNumber := page, preview := d.preview, altText := d.altText,
    keywords := d.keywords, taxonomy := d.taxonomy,
    boundingBox := d.boundingBox }

/-- A user record from the mock user store (only the fields the extractor
reads: token accounting). -/
structure User where
  id : Nat
  tokensUsed : Nat
  tokenCap : Nat
deriving DecidableEq, Repr

/-- A dropped file together with the behaviour of the document-rendering
backend on it: its page count, and whether `pdfjsLib.getDocument` succeeds
(`loadOk`; `loadErrMsg` is the thrown message otherwise). -/
structure PdfFile where
  name : String
  size : Nat
  pages : Nat
  loadOk : Bool
  loadErrMsg : String
deriving DecidableEq, Repr

/-- Toast severity, as in `addToast({type: ...})`. -/
inductive ToastKind
  | error
  | success
  | info
deriving DecidableEq, Repr

/-- A toast notification. -/
structure Toast where
  kind : ToastKind
  message : String
deriving DecidableEq, Repr

/-- The component `status` state:
`'idle' | 'loading' | 'extracting' | 'done' | 'error'`. -/
inductive Status
  | idle
  | loading
  | extracting
  | done
  | error
deriving DecidableEq, Repr

/-- The `selectionRect` state value: `{ pageIndex, rect }`. -/
structure SelRect where
  pageIndex : Nat
  rect : BBox
deriving DecidableEq, Repr

/-- The `useState` fields of the `MetadataExtractor` component that the
claims are about.  `pdfLoaded` stands for `pdfDoc !== null`. -/
structure MEState where
  file : Option PdfFile := none
  status : Status := .idle
  statusMessage : String := ""
  extractedAssets : List Asset := []
  selectedAssetId : Option Nat := none
  pdfLoaded : Bool := false
  selectionMode : Bool := false
  isSelecting : Bool := false
  selectionRect : Option SelRect := none
  selectionStart : Option Point := none
deriving DecidableEq, Repr

/-! ## Upload gate (`onDrop`) -/

/-- The 100 MB upload limit: `100 * 1024 * 1024` bytes. -/
def sizeLimit : Nat := 100 * 1024 * 1024

/-- `onDrop`: the dropzone callback.  Rejects files over the size limit
with an error toast and leaves the state untouched; otherwise stores the
file.  Synchronous: it performs no loading or rasterization. -/
def onDrop (selectedFile : PdfFile) (st : MEState) : MEState × List Toast :=
  if selectedFile.size > sizeLimit then
    (st, [⟨.error, "File size cannot exceed 100MB."⟩])
  else
    ({ st with file := some selectedFile }, [])

/-! ## Coordinate mapper (inline in `handleMouseMove`) -/

/-- The normalized selection rectangle computed by `handleMouseMove` from
the drag-start point and the current pointer point (both in page-relative
pixels) and the page container's pixel size: `x = min(start.x, current.x)
/ width * 100`, `width = |current.x - start.x| / width * 100`, and
likewise for `y`/`height`. -/
def selectionBoxFor (start cur : Point) (w h : ℚ) : BBox :=
  { x := min start.x cur.x / w * 100
    y := min start.y cur.y / h * 100
    width := |cur.x - start.x| / w * 100
    height := |cur.y - start.y| / h * 100 }

/-! ## Region selection handlers -/

/-- The `Select` toolbar button: `setSelectionMode(!selectionMode)`. -/
def toggleSelectionMode (st : MEState) : MEState :=
  { st with selectionMode := !st.selectionMode }

/-- `handleMouseDown`: when selection mode is on and the pointer went down
inside the page container with index `pageIndex` and client rect
`pageRect`, begin a drag: record the page-relative start point and
initialize a zero-size selection rectangle at that point (in percent). -/
def handleMouseDown (client : Point) (pageIndex : Nat) (pageRect : DomRect)
    (st : MEState) : MEState :=
  if st.selectionMode = false then st
  else
    let x := client.x - pageRect.left
    let y := client.y - pageRect.top
    { st with
      isSelecting := true
      selectionStart := some ⟨x, y⟩
      selectionRect := some ⟨pageIndex,
        ⟨x / pageRect.width * 100, y / pageRect.height * 100, 0, 0⟩⟩ }

/-- `handleMouseMove`: while dragging, recompute the normalized rectangle
against the rect of the page container captured at drag start (the
`pageIndex` stored in `selectionRect` is kept unchanged). -/
def handleMouseMove (client : Point) (pageRect : DomRect) (st : MEState) :
    MEState :=
  match st.selectionStart, st.selectionRect with
  | some start, some sel =>
    if st.isSelecting = false then st
    else
      let cur : Point := ⟨client.x - pageRect.left, client.y - pageRect.top⟩
      let sel2 : SelRect :=
        ⟨sel.pageIndex, selectionBoxFor start cur pageRect.width pageRect.height⟩
      { st with selectionRect := some sel2 }
  | _, _ => st

/-- `handleMouseUp`: freeze the rectangle (stop dragging, clear the start
point; the `selectionRect` is kept — the "Proposed" state). -/
def handleMouseUp (st : MEState) : MEState :=
  { st with isSelecting := false, selectionStart := none }

/-- The cancel (X) button of the proposed-selection affordance:
`onClick={() => setSelectionRect(null)}`.  Note: it clears only the
rectangle; `selectionMode` is left as it is. -/
def cancelSelection (st : MEState) : MEState :=
  { st with selectionRect := none }

/-- `handleGenerateForSelection` (tsx variant): confirm the proposed
rectangle.  Rasterizes the captured page, crops, and calls the
single-region service; the environment supplies whether a 2-D context was
obtainable (`ctxOk`) and the service outcome (`svcSel`).  On success the
new asset (descriptor + fresh id + `pageNumber = pageIndex + 1` + the
frozen rectangle as `boundingBox`) is appended to `extractedAssets`.  The
`finally` block restores `status`, clears `statusMessage` and
`selectionRect`, and turns selection mode off — on success and failure
alike. -/
def handleGenerateForSelection (ctxOk : Bool) (svcSel : Except String AssetDesc)
    (newId : Nat) (st : MEState) : MEState × List Toast :=
  match st.selectionRect with
  | none => (st, [])
  | some sel =>
    if st.pdfLoaded = false then (st, [])
    else
      match (if ctxOk then svcSel else .error "Could not get canvas context") with
      | .ok d =>
        let a : Asset :=
          { id := newId, assetId := d.assetId, assetType := d.assetType,
            pageNumber := sel.pageIndex + 1, preview := d.preview,
            altText := d.altText, keywords := d.keywords,
            taxonomy := d.taxonomy, boundingBox := some sel.rect }
        ({ st with extractedAssets := st.extractedAssets ++ [a],
                   statusMessage := "", selectionRect := none,
                   selectionMode := false },
         [⟨.success, "New asset added!"⟩])
      | .error _ =>
        ({ st with statusMessage := "", selectionRect := none,
                   selectionMode := false },
         [⟨.error, "Could not generate metadata for selection."⟩])

/-! ## Extraction pipeline (`handleProcess`)

The per-page loop of `handleProcess` is embedded as a recursion over the
list of page numbers `[1, …, pageCount]`.  The observable actions of a run
are recorded as a trace of events: loading the document, rasterizing a
page (`page.render` onto a canvas), invoking `extractAssetsFromPage`, and
appending a page's tagged assets to the collection (the incremental
`setExtractedAssets` call).  The metadata service is supplied by the
environment as `svc : Nat → Except String (List AssetDesc)`; a page whose
`canvas.getContext('2d')` returns null is indicated by `ctxOk page =
false` (that page is skipped by `continue`). -/

/-- Observable pipeline events, in the order they are performed. -/
inductive PEvent
  | loadDoc
  | raster (page : Nat)
  | svcCall (page : Nat)
  | append (page : Nat) (assets : List Asset)
deriving DecidableEq, Repr

/-- `assetsOnPage.map(asset => ({...asset, id: fresh, pageNumber}))` —
tag a page's descriptors with the page number and consecutive fresh ids
starting at `nid`. -/
def mkPageAssets (ds : List AssetDesc) (page nid : Nat) : List Asset :=
  ds.enum.map fun p => mkAsset p.2 page (nid + p.1)

/-- Result of running the per-page loop: the event trace, the final asset
accumulator (`allAssets`), the next fresh id, and the error that aborted
the loop, if any. -/
structure PipeResult where
  events : List PEvent
  assets : List Asset
  nextId : Nat
  err : Option String
deriving DecidableEq, Repr

/-- The `for (pageNum = 1; pageNum <= pdf.numPages; pageNum++)` loop of
`handleProcess`: strictly sequential.  For each page: if the 2-D canvas
context is unavailable, `continue` (no rasterization, no service call);
otherwise rasterize, call the service, and on a non-empty result append
the tagged assets and publish.  A service failure throws, aborting the
whole loop. -/
def pipelinePages (ctxOk : Nat → Bool) (svc : Nat → Except String (List AssetDesc)) :
    List Nat → List Asset → Nat → PipeResult
  | [], acc, nid => ⟨[], acc, nid, none⟩
  | p :: rest, acc, nid =>
    if ctxOk p then
      match svc p with
      | .error e => ⟨[.raster p, .svcCall p], acc, nid, some e⟩
      | .ok ds =>
        if ds.isEmpty then
          let r := pipelinePages ctxOk svc rest acc nid
          ⟨.raster p :: .svcCall p :: r.events, r.assets, r.nextId, r.err⟩
        else
          let newAssets := mkPageAssets ds p nid
          let r := pipelinePages ctxOk svc rest (acc ++ newAssets) (nid + ds.length)
          ⟨.raster p :: .svcCall p :: .append p newAssets :: r.events,
           r.assets, r.nextId, r.err⟩
    else
      pipelinePages ctxOk svc rest acc nid

/-- `handleProcess`: the extraction entry point.  Guards in source order:
missing file, missing user, token budget (`tokensUsed >= tokenCap`) — each
returns before any state change, any document load or any service call.
Then the previous results are cleared, the document is loaded (failure is
caught and surfaced), and the per-page loop runs; a caught loop error sets
the error status/message while keeping the assets already published. -/
def handleProcess (user : Option User) (ctxOk : Nat → Bool)
    (svc : Nat → Except String (List AssetDesc)) (st : MEState) :
    MEState × List PEvent × List Toast :=
  match st.file with
  | none => (st, [], [⟨.error, "Please upload a PDF file."⟩])
  | some f =>
    match user with
    | none => (st, [], [⟨.error, "No user logged in."⟩])
    | some u =>
      if u.tokenCap ≤ u.tokensUsed then
        (st, [], [⟨.error, "Token cap reached - contact admin."⟩])
      else
        let st1 := { st with status := Status.loading,
                             statusMessage := "Loading PDF document...",
                             extractedAssets := [] }
        if f.loadOk then
          let st2 := { st1 with pdfLoaded := true, status := Status.extracting }
          let r := pipelinePages ctxOk svc (List.range' 1 f.pages) [] 0
          match r.err with
          | some e =>
            ({ st2 with status := Status.error, statusMessage := e,
                        extractedAssets := r.assets },
             PEvent.loadDoc :: r.events, [⟨.error, e⟩])
          | none =>
            ({ st2 with status := Status.done, statusMessage := "",
                        extractedAssets := r.assets },
             PEvent.loadDoc :: r.events,
             [⟨.success, "Extraction complete!"⟩])
        else
          ({ st1 with status := Status.error, statusMessage := f.loadErrMsg },
           [], [⟨.error, f.loadErrMsg⟩])

/-! ## Asset collection sort (`sortAssets`, alternate variant)

The alternate variant of the component defines

```
const sortAssets = (assets) => assets.sort((a, b) => {
  if (a.pageNumber !== b.pageNumber) return a.pageNumber - b.pageNumber;
  if (a.boundingBox && b.boundingBox) return a.boundingBox.y - b.boundingBox.y;
  return 0;
});
```

and applies it after every pipeline append and after every
region-selection insertion.  `Array.prototype.sort` is a stable sort by
the comparator; it is embedded as a stable insertion sort w.r.t.
`cmpAssets · · ≤ 0`. -/

/-- The `sortAssets` comparator: page number difference first, then the
bounding-box `y` difference when both assets have one, else `0`. -/
def cmpAssets (a b : Asset) : ℚ :=
  if a.pageNumber ≠ b.pageNumber then (a.pageNumber : ℚ) - (b.pageNumber : ℚ)
  else
    match a.boundingBox, b.boundingBox with
    | some ba, some bb => ba.y - bb.y
    | _, _ => 0

/-- Stable insertion w.r.t. the comparator: place `a` before the first
element it does not compare after. -/
def insertByCmp (a : Asset) : List Asset → List Asset
  | [] => [a]
  | b :: bs => if cmpAssets a b ≤ 0 then a :: b :: bs else b :: insertByCmp a bs

/-- `sortAssets`: stable sort of the collection by `cmpAssets`. -/
def sortAssets : List Asset → List Asset
  | [] => []
  | a :: as => insertByCmp a (sortAssets as)

/-- States of the asset collection reachable in the `sortAssets` variant:
the empty collection, a pipeline batch insert
(`setExtractedAssets(sortAssets([...allAssets, ...newAssets]))`), and a
region-selection insert
(`setExtractedAssets(prev => sortAssets([...prev, newAsset]))`). -/
inductive ReachSorted : List Asset → Prop
  | init : ReachSorted []
  | insertAll (s new : List Asset) : ReachSorted s → ReachSorted (sortAssets (s ++ new))
  | insertSelection (s : List Asset) (a : Asset) :
      ReachSorted s → ReachSorted (sortAssets (s ++ [a]))

/-! ## CSV export (`handleExport`)

`handleExport` builds one text where the header line is terminated by
`"\n"` and each asset row by `"\r\n"`; a row is the 7 fields
`[filename, assetId, assetType, pageNumber, "altText", "keywords joined
with ', '", "taxonomy"]` joined with `','`, where the three quoted fields
have every `"` doubled (`.replace(/"/g, '""')`) and are wrapped in
quotes.  Strings are embedded at the character-list level (`String.data`);
`Array.join(',')` of the 7 fields is written as the equivalent explicit
concatenation. -/

/-- `s.replace(/"/g, '""')` — double every double-quote character. -/
def escQuotes : List Char → List Char
  | [] => []
  | c :: cs => if c = '"' then '"' :: '"' :: escQuotes cs else c :: escQuotes cs

/-- Wrap a field in double quotes after doubling embedded quotes. -/
def quoteField (s : List Char) : List Char :=
  '"' :: (escQuotes s ++ ['"'])

/-- The character of a decimal digit: `'0'` .. `'9'`. -/
def digChar (n : Nat) : Char := Char.ofNat (48 + n % 10)

/-- Decimal representation of a natural number (the JS number-to-string
conversion applied to `asset.pageNumber`), with explicit fuel so that it
reduces by evaluation. -/
def natChars : Nat → Nat → List Char
  | 0, _ => []
  | fuel + 1, n =>
    if n < 10 then [digChar n]
    else natChars fuel (n / 10) ++ [digChar (n % 10)]

/-- Decimal digits of `n`. -/
def natToChars (n : Nat) : List Char := natChars (n + 1) n

/-- The exact header row. -/
def csvHeader : List Char :=
  "Filename,Asset ID,Asset Type,Page/Location,Alt Text,Keywords,Taxonomy".data

/-- One CSV row for an asset: the 7 fields joined with `','`, terminated
by CRLF. -/
def csvRow (fname : String) (a : Asset) : List Char :=
  fname.data ++ ',' :: a.assetId.data ++ ',' :: a.assetType.data
    ++ ',' :: natToChars a.pageNumber
    ++ ',' :: quoteField a.altText.data
    ++ ',' :: quoteField (String.intercalate ", " a.keywords).data
    ++ ',' :: quoteField a.taxonomy.data
    ++ ['\r', '\n']

/-- `handleExport`'s CSV text (without the `data:` URI prefix): the header
line terminated by `'\n'`, then one row per asset in current display
order. -/
def handleExportCsv (fname : String) (assets : List Asset) : List Char :=
  csvHeader ++ '\n' :: assets.flatMap (csvRow fname)

/-! ### A standard CSV reader

Modelled from the spec: "fields containing quotes are doubled per
standard CSV quoting; fields containing commas must be quoted" — the
parsing side of the round-trip property.  A field starting with `"` is
read as a quoted field (a doubled `""` is a literal quote, a lone `"`
ends the field); any other field extends to the next `','` or CRLF.
Records are separated by CRLF; the header line is dropped first. -/

/-- Does the input start with a line feed? -/
def headIsLF : List Char → Bool
  | [] => false
  | c :: _ => c = '\n'

/-- Does the input start with a double quote? -/
def headIsQuote : List Char → Bool
  | [] => false
  | c :: _ => c = '"'

/-- Read the body of a quoted field after its opening quote (a doubled
`""` is a literal quote, a lone `"` closes the field).  Returns the
unescaped field and the remaining input after the closing quote. -/
def readQuoted : List Char → Option (List Char × List Char)
  | [] => none
  | c :: cs =>
    if c = '"' then
      match cs with
      | [] => some ([], [])
      | c2 :: cs2 =>
        if c2 = '"' then (readQuoted cs2).map fun p => ('"' :: p.1, p.2)
        else some ([], cs)
    else (readQuoted cs).map fun p => (c :: p.1, p.2)

/-- Read an unquoted field: everything up to the next `','` or CRLF pair
(a `'\r'` not followed by `'\n'` is field content). -/
def readUnquoted : List Char → List Char × List Char
  | [] => ([], [])
  | c :: cs =>
    if c = ',' then ([], ',' :: cs)
    else if c = '\r' then
      if headIsLF cs then ([], '\r' :: cs)
      else
        let p := readUnquoted cs
        (c :: p.1, p.2)
    else
      let p := readUnquoted cs
      (c :: p.1, p.2)

/-- Read one field (quoted or unquoted). -/
def readField (input : List Char) : Option (List Char × List Char) :=
  match input with
  | [] => some ([], [])
  | c :: tl =>
    if c = '"' then readQuoted tl
    else some (readUnquoted (c :: tl))

/-- Read the fields of one record, consuming its CRLF terminator (fuelled
by the maximal number of fields). -/
def readRecordAux : Nat → List Char → Option (List (List Char) × List Char)
  | 0, _ => none
  | fuel + 1, input =>
    match readField input with
    | none => none
    | some (f, rest) =>
      match rest with
      | [] => some ([f], [])
      | c :: r2 =>
        if c = ',' then (readRecordAux fuel r2).map fun q => (f :: q.1, q.2)
        else if c = '\r' then
          if headIsLF r2 then some ([f], r2.tail)
          else none
        else none

/-- Read all records until the input is exhausted (fuelled by the maximal
number of records). -/
def readRecords : Nat → List Char → Option (List (List (List Char)))
  | 0, _ => none
  | fuel + 1, input =>
    if input.isEmpty then some []
    else
      match readRecordAux (input.length + 1) input with
      | none => none
      | some (fs, rest) => (readRecords fuel rest).map (fs :: ·)

/-- Parse a CSV text: drop the header line, then read the records. -/
def parseCsv (input : List Char) : Option (List (List (List Char))) :=
  let afterHeader := (input.dropWhile (· ≠ '\n')).drop 1
  readRecords (afterHeader.length + 1) afterHeader

/-- The record a CSV reader should recover for an asset: the same tuple
`(filename, assetId, assetType, pageNumber, altText, keywords joined,
taxonomy)` that is in memory at export time. -/
def expectedRecord (fname : String) (a : Asset) : List (List Char) :=
  [fname.data, a.assetId.data, a.assetType.data, natToChars a.pageNumber,
   a.altText.data, (String.intercalate ", " a.keywords).data, a.taxonomy.data]

/-- Does the character list contain a CR immediately followed by LF? -/
def hasCRLF : List Char → Bool
  | [] => false
  | c :: cs => if c = '\r' then headIsLF cs || hasCRLF cs else hasCRLF cs

/-- Cleanliness of an unquoted field. -/
def CleanField (s : String) : Prop :=
  ',' ∉ s.data ∧ '"' ∉ s.data ∧ hasCRLF s.data = false

instance (s : String) : Decidable (CleanField s) := by
  unfold CleanField; infer_instance

/-! ## Lazy page renderer (`LazyPdfPage`)

The component keeps `isIntersecting`/`isRendered` state.  An
`IntersectionObserver` (500 px root margin) calls back with the entry;
when the entry intersects, the component sets `isIntersecting` and
unobserves (a one-shot trigger).  A second effect, with dependencies
`[isIntersecting, isRendered]` (plus the per-load constants
`pdfDoc`/`pageNum`), returns early unless `isIntersecting && !isRendered`;
otherwise it creates a fresh `isCancelled` flag and calls
`pdfDoc.getPage`; when that promise resolves and the run is not cancelled,
`page.render` starts; when the render promise resolves and the run is not
cancelled, `isRendered` is set.  The effect's cleanup (run before a
re-run, and on unmount) sets the run's `isCancelled` flag.

This is embedded as a small-step machine over event traces.  React's
scheduling contract is captured in the steps themselves: an effect does
not re-run while its dependencies are unchanged (`lastDeps`), effects do
not run after unmount, and a promise resolves at most once
(`resolvedRuns`).  Each effect invocation that calls `getPage` registers a
run id; `renderStarted` collects the runs whose `page.render` actually
started. -/

/-- State of one `LazyPdfPage` instance (for one page, one document load). -/
structure LPState where
  stillObserved : Bool := true
  isIntersecting : Bool := false
  isRendered : Bool := false
  lastDeps : Option (Bool × Bool) := none
  currentRun : Option Nat := none
  cancelledRuns : List Nat := []
  resolvedRuns : List Nat := []
  getPageCalls : Nat := 0
  renderStarted : List Nat := []
  tornDown : Bool := false
deriving DecidableEq, Repr

/-- Events delivered to a `LazyPdfPage` instance: an intersection-observer
callback, a run of the render effect, resolution of a run's `getPage`
promise, resolution of a run's `render` promise, and unmount. -/
inductive LPEvent
  | intersect (isIn : Bool)
  | effectRun
  | pageResolved (r : Nat)
  | renderDone (r : Nat)
  | teardown
deriving DecidableEq, Repr

/-- One step of the `LazyPdfPage` machine. -/
def lpStep (s : LPState) : LPEvent → LPState
  | .intersect isIn =>
    if s.tornDown then s
    else if s.stillObserved && isIn then
      { s with isIntersecting := true, stillObserved := false }
    else s
  | .effectRun =>
    if s.tornDown then s
    else if s.lastDeps = some (s.isIntersecting, s.isRendered) then s
    else
      let cancelled2 :=
        match s.currentRun with
        | some r => r :: s.cancelledRuns
        | none => s.cancelledRuns
      if s.isIntersecting && !s.isRendered then
        { s with lastDeps := some (s.isIntersecting, s.isRendered),
                 cancelledRuns := cancelled2,
                 currentRun := some s.getPageCalls,
                 getPageCalls := s.getPageCalls + 1 }
      else
        { s with lastDeps := some (s.isIntersecting, s.isRendered),
                 cancelledRuns := cancelled2,
                 currentRun := none }
  | .pageResolved r =>
    if r ∈ s.resolvedRuns then s
    else if r < s.getPageCalls then
      if r ∈ s.cancelledRuns then { s with resolvedRuns := r :: s.resolvedRuns }
      else { s with resolvedRuns := r :: s.resolvedRuns,
                    renderStarted := r :: s.renderStarted }
    else s
  | .renderDone r =>
    if r ∈ s.renderStarted ∧ r ∉ s.cancelledRuns then
      { s with isRendered := true }
    else s
  | .teardown =>
    { s with tornDown := true,
             cancelledRuns :=
               match s.currentRun with
               | some r => r :: s.cancelledRuns
               | none => s.cancelledRuns }

/-- Run a trace of events from the initial (mounted, unobserved) state. -/
def lpRun (evs : List LPEvent) : LPState :=
  evs.foldl lpStep {}

/-! ## Theorems -/

/-! ### C8 — normalization of the selection rectangle -/

/-- C8: for every pair of drag start and current points, the normalized
selection rectangle has `width ≥ 0`, `height ≥ 0`, its `x` (resp. `y`) is
the minimum of the two points' percentage x (resp. y) coordinates, and
swapping the start and current points (a mirrored drag) yields exactly the
same normalized box. -/
theorem c8_normalize_rect (start cur : Point) (w h : ℚ) (hw : 0 < w) (hh : 0 < h) :
    0 ≤ (selectionBoxFor start cur w h).width ∧
    0 ≤ (selectionBoxFor start cur w h).height ∧
    (selectionBoxFor start cur w h).x = min (start.x / w * 100) (cur.x / w * 100) ∧
    (selectionBoxFor start cur w h).y = min (start.y / h * 100) (cur.y / h * 100) ∧
    selectionBoxFor cur start w h = selectionBoxFor start cur w h := by
  have key : ∀ (a b c : ℚ), 0 < c → min a b / c * 100 = min (a / c * 100) (b / c * 100) := by
    intro a b c hc
    rcases le_total a b with hab | hab
    · rw [min_eq_left hab, min_eq_left]
      gcongr
    · rw [min_eq_right hab, min_eq_right]
      gcongr
  refine ⟨?_, ?_, key _ _ _ hw, key _ _ _ hh, ?_⟩
  · exact mul_nonneg (div_nonneg (abs_nonneg _) hw.le) (by norm_num)
  · exact mul_nonneg (div_nonneg (abs_nonneg _) hh.le) (by norm_num)
  · simp [selectionBoxFor, min_comm, abs_sub_comm]

/-- Witness for C8 at a concrete mirrored drag. -/
theorem c8_normalize_rect_witness :
    (0:ℚ) < 100 ∧ (0:ℚ) < 200 ∧
    (0 ≤ (selectionBoxFor ⟨30, 40⟩ ⟨10, 90⟩ 100 200).width ∧
     0 ≤ (selectionBoxFor ⟨30, 40⟩ ⟨10, 90⟩ 100 200).height ∧
     (selectionBoxFor ⟨30, 40⟩ ⟨10, 90⟩ 100 200).x =
       min ((30:ℚ) / 100 * 100) ((10:ℚ) / 100 * 100) ∧
     (selectionBoxFor ⟨30, 40⟩ ⟨10, 90⟩ 100 200).y =
       min ((40:ℚ) / 200 * 100) ((90:ℚ) / 200 * 100) ∧
     selectionBoxFor ⟨10, 90⟩ ⟨30, 40⟩ 100 200 =
       selectionBoxFor ⟨30, 40⟩ ⟨10, 90⟩ 100 200) :=
  ⟨by norm_num, by norm_num,
   c8_normalize_rect ⟨30, 40⟩ ⟨10, 90⟩ 100 200 (by norm_num) (by norm_num)⟩

/-! ### C5 — token budget gate -/

/-- C5: if the current user's `tokensUsed` is at least their `tokenCap`,
invoking extraction (with a file present) returns immediately with the
budget-exceeded error toast, the component state is completely unchanged,
and no event occurs: no document is loaded, no page is rasterized, the
metadata service is never invoked. -/
theorem c5_budget_gate (st : MEState) (f : PdfFile) (u : User)
    (ctxOk : Nat → Bool) (svc : Nat → Except String (List AssetDesc))
    (hf : st.file = some f) (hb : u.tokenCap ≤ u.tokensUsed) :
    handleProcess (some u) ctxOk svc st =
      (st, [], [⟨ToastKind.error, "Token cap reached - contact admin."⟩]) := by
  simp [handleProcess, hf, hb]

/-- Witness for C5: a user at exactly their cap. -/
theorem c5_budget_gate_witness :
    ({ file := some ⟨"a.pdf", 5, 3, true, ""⟩ } : MEState).file =
        some ⟨"a.pdf", 5, 3, true, ""⟩ ∧
    (50000 : Nat) ≤ 50000 ∧
    handleProcess (some ⟨2, 50000, 50000⟩) (fun _ => true) (fun _ => .ok [])
        { file := some ⟨"a.pdf", 5, 3, true, ""⟩ } =
      ({ file := some ⟨"a.pdf", 5, 3, true, ""⟩ }, [],
       [⟨ToastKind.error, "Token cap reached - contact admin."⟩]) :=
  ⟨rfl, le_refl _,
   c5_budget_gate _ ⟨"a.pdf", 5, 3, true, ""⟩ ⟨2, 50000, 50000⟩ _ _ rfl (le_refl _)⟩

/-! ### C6 — 100 MB size gate -/

/-- C6: a dropped file whose size exceeds 100 MB is rejected synchronously
with the validation error toast and the state is unchanged — in particular
the file is not stored and nothing is loaded or rasterized (`onDrop`
performs no other action). -/
theorem c6_size_gate (f : PdfFile) (st : MEState) (hsize : sizeLimit < f.size) :
    onDrop f st = (st, [⟨ToastKind.error, "File size cannot exceed 100MB."⟩]) := by
  simp [onDrop, hsize]

/-- Witness for C6: a file of exactly `100*1024*1024 + 1` bytes. -/
theorem c6_size_gate_witness :
    sizeLimit < 100 * 1024 * 1024 + 1 ∧
    onDrop ⟨"big.pdf", 100 * 1024 * 1024 + 1, 7, true, ""⟩ {} =
      ({}, [⟨ToastKind.error, "File size cannot exceed 100MB."⟩]) :=
  ⟨by norm_num [sizeLimit],
   c6_size_gate ⟨"big.pdf", 100 * 1024 * 1024 + 1, 7, true, ""⟩ {}
     (by norm_num [sizeLimit])⟩

/-! ### C4 — region-selection confirm/cancel -/

/-- C4 fails as stated: after a drag freezes a proposed rectangle,
pressing cancel (`setSelectionRect(null)`) does NOT return the controller
to `Inactive` with selection mode off — `selectionMode` stays `true`
(state `Idle`).  Concretely: enter selection mode, drag on page 0 from
(30,40) to (50,90), release, press cancel; no asset is added and the
rectangle is cleared, but selection mode is still on. -/
theorem c4_counterexample :
    (cancelSelection (handleMouseUp (handleMouseMove ⟨50, 90⟩ ⟨0, 0, 100, 200⟩
        (handleMouseDown ⟨30, 40⟩ 0 ⟨0, 0, 100, 200⟩
          (toggleSelectionMode { pdfLoaded := true, status := .done }))))).selectionMode
        = true ∧
    (cancelSelection (handleMouseUp (handleMouseMove ⟨50, 90⟩ ⟨0, 0, 100, 200⟩
        (handleMouseDown ⟨30, 40⟩ 0 ⟨0, 0, 100, 200⟩
          (toggleSelectionMode { pdfLoaded := true, status := .done }))))).extractedAssets
        = [] ∧
    (cancelSelection (handleMouseUp (handleMouseMove ⟨50, 90⟩ ⟨0, 0, 100, 200⟩
        (handleMouseDown ⟨30, 40⟩ 0 ⟨0, 0, 100, 200⟩
          (toggleSelectionMode { pdfLoaded := true, status := .done }))))).selectionRect
        = none := by
  decide

/-- C4 (amended): with a proposed rectangle frozen, cancel adds no asset,
clears the rectangle, and leaves `selectionMode` unchanged (the controller
returns to `Idle`, not `Inactive`); confirming with a successful service
response appends exactly one new asset whose `boundingBox` is the frozen
rectangle and whose `pageNumber` is the captured page index + 1, and
selection mode exits. -/
theorem c4_confirm_cancel (st : MEState) (pi : Nat) (r : BBox) (d : AssetDesc)
    (nid : Nat) (hsel : st.selectionRect = some ⟨pi, r⟩)
    (hpdf : st.pdfLoaded = true) :
    (cancelSelection st).extractedAssets = st.extractedAssets ∧
    (cancelSelection st).selectionRect = none ∧
    (cancelSelection st).selectionMode = st.selectionMode ∧
    (handleGenerateForSelection true (.ok d) nid st).1.extractedAssets =
      st.extractedAssets ++
        [⟨nid, d.assetId, d.assetType, pi + 1, d.preview, d.altText,
          d.keywords, d.taxonomy, some r⟩] ∧
    (handleGenerateForSelection true (.ok d) nid st).1.selectionMode = false ∧
    (handleGenerateForSelection true (.ok d) nid st).1.selectionRect = none := by
  refine ⟨rfl, rfl, rfl, ?_, ?_, ?_⟩ <;>
    simp [handleGenerateForSelection, hsel, hpdf, mkAsset]

/-- A concrete component state with a frozen proposed selection, used to
witness C4. -/
def c4State : MEState :=
  { pdfLoaded := true, selectionMode := true,
    selectionRect := some ⟨1, ⟨10, 20, 30, 40⟩⟩ }

/-- Witness for C4 (amended) at a concrete proposed selection. -/
theorem c4_confirm_cancel_witness :
    c4State.selectionRect = some ⟨1, ⟨10, 20, 30, 40⟩⟩ ∧
    c4State.pdfLoaded = true ∧
    (handleGenerateForSelection true
        (.ok ⟨"Fig X", "Figure", "p", "alt", ["k"], "t", none⟩) 9
        c4State).1.extractedAssets =
      c4State.extractedAssets ++
        [⟨9, "Fig X", "Figure", 2, "p", "alt", ["k"], "t",
          some ⟨10, 20, 30, 40⟩⟩] :=
  ⟨rfl, rfl,
   (c4_confirm_cancel c4State 1 ⟨10, 20, 30, 40⟩
      ⟨"Fig X", "Figure", "p", "alt", ["k"], "t", none⟩ 9 rfl rfl).2.2.2.1⟩

/-! ### C3 — display order by page number -/

/-- Display-order relation on assets: non-decreasing page number. -/
def pageLE (a b : Asset) : Prop := a.pageNumber ≤ b.pageNumber

instance : DecidableRel pageLE := fun a b => by
  unfold pageLE; infer_instance

theorem pageLE_of_cmp_le {a b : Asset} (h : cmpAssets a b ≤ 0) : pageLE a b := by
  unfold pageLE
  by_cases hp : a.pageNumber = b.pageNumber
  · exact hp.le
  · simp only [cmpAssets, if_pos (by exact hp)] at h
    have := sub_nonpos.mp h
    exact_mod_cast this

theorem pageLE_of_cmp_gt {a b : Asset} (h : ¬ cmpAssets a b ≤ 0) : pageLE b a := by
  unfold pageLE
  by_cases hp : a.pageNumber = b.pageNumber
  · exact hp.ge
  · simp only [cmpAssets, if_pos (by exact hp)] at h
    have h2 : (0 : ℚ) < (a.pageNumber : ℚ) - (b.pageNumber : ℚ) := lt_of_not_le h
    have := sub_pos.mp h2
    have : (b.pageNumber : ℚ) ≤ (a.pageNumber : ℚ) := this.le
    exact_mod_cast this

theorem mem_insertByCmp {a x : Asset} {l : List Asset} :
    x ∈ insertByCmp a l ↔ x = a ∨ x ∈ l := by
  induction l with
  | nil => simp [insertByCmp]
  | cons b bs ih =>
    by_cases hc : cmpAssets a b ≤ 0
    · simp [insertByCmp, hc]
    · simp [insertByCmp, hc, ih]
      tauto

theorem insertByCmp_pairwise {a : Asset} {l : List Asset}
    (h : l.Pairwise pageLE) : (insertByCmp a l).Pairwise pageLE := by
  induction l with
  | nil => simp [insertByCmp]
  | cons b bs ih =>
    rcases List.pairwise_cons.mp h with ⟨hb, hbs⟩
    by_cases hc : cmpAssets a b ≤ 0
    · simp only [insertByCmp, if_pos hc]
      refine List.pairwise_cons.mpr ⟨?_, h⟩
      intro x hx
      rcases List.mem_cons.mp hx with rfl | hx
      · exact pageLE_of_cmp_le hc
      · exact le_trans (pageLE_of_cmp_le hc) (hb x hx)
    · simp only [insertByCmp, if_neg hc]
      refine List.pairwise_cons.mpr ⟨?_, ih hbs⟩
      intro x hx
      rcases mem_insertByCmp.mp hx with rfl | hx
      · exact pageLE_of_cmp_gt hc
      · exact hb x hx

theorem sortAssets_pairwise (l : List Asset) :
    (sortAssets l).Pairwise pageLE := by
  induction l with
  | nil => simp [sortAssets]
  | cons a as ih => exact insertByCmp_pairwise ih

/-- C3 (amended, `sortAssets` variant): every state of the asset
collection reachable through the sorted pipeline inserts and the sorted
region-selection inserts of the `sortAssets` variant is ordered by
non-decreasing `pageNumber`; hence for any two assets `a, b` in it with
`a.pageNumber < b.pageNumber`, `a` precedes `b` in iteration order,
regardless of the order in which they were inserted. -/
theorem c3_reachable_sorted (s : List Asset) (h : ReachSorted s) :
    s.Pairwise pageLE := by
  induction h with
  | init => simp
  | insertAll s new _ _ => exact sortAssets_pairwise _
  | insertSelection s a _ _ => exact sortAssets_pairwise _

/-- A page-2 asset inserted before a page-1 asset (out of page order). -/
def a2c3 : Asset := ⟨0, "T 1", "Table", 2, "p", "alt", ["k"], "t", none⟩

/-- A page-1 asset inserted after the page-2 asset. -/
def a1c3 : Asset := ⟨1, "F 1", "Figure", 1, "q", "alt2", ["m"], "u", none⟩

/-- Witness for C3 (amended): the out-of-order insertion
`[] ++ [a2c3, a1c3]`, once sorted, is reachable and page-ordered. -/
theorem c3_reachable_sorted_witness :
    ReachSorted (sortAssets ([] ++ [a2c3, a1c3])) ∧
    (sortAssets ([] ++ [a2c3, a1c3])).Pairwise pageLE :=
  ⟨.insertAll [] [a2c3, a1c3] .init,
   c3_reachable_sorted _ (.insertAll [] [a2c3, a1c3] .init)⟩

/-- The extraction environment for the C3 counterexample: page 1 has no
assets, page 2 has one. -/
def c3Svc : Nat → Except String (List AssetDesc) :=
  fun p =>
    if p = 2 then .ok [⟨"T 1", "Table", "p", "alt", ["k"], "t", none⟩]
    else .ok []

/-- The collection after: run the (main-variant) pipeline on a 2-page
document whose only asset is on page 2, then region-select on page 0 and
confirm — the main variant appends the new asset without re-sorting. -/
def c3Final : List Asset :=
  (handleGenerateForSelection true
    (.ok ⟨"Fig A", "Figure", "q", "alt2", ["m"], "u", none⟩) 7
    (handleMouseUp (handleMouseDown ⟨30, 40⟩ 0 ⟨0, 0, 100, 200⟩
      (toggleSelectionMode
        (handleProcess (some ⟨1, 0, 1000⟩) (fun _ => true) c3Svc
          { file := some ⟨"doc.pdf", 5, 2, true, ""⟩ }).1)))).1.extractedAssets

/-- C3 fails as stated on the main variant: its region-selection insert is
a plain append (`setExtractedAssets(prev => [...prev, newAsset])`), so a
page-1 asset inserted after a page-2 asset ends up after it in iteration
order. -/
theorem c3_counterexample :
    c3Final.map (fun a => a.pageNumber) = [2, 1] ∧
    ¬ c3Final.Pairwise pageLE := by
  constructor
  · decide
  · decide

/-! ### C1 — sequential page order and append order -/

/-- The pages of the service-call events of a trace, in trace order. -/
def svcPages (evs : List PEvent) : List Nat :=
  evs.filterMap fun e =>
    match e with
    | .svcCall p => some p
    | _ => none

/-- The pages of the append events of a trace, in trace order. -/
def appendPages (evs : List PEvent) : List Nat :=
  evs.filterMap fun e =>
    match e with
    | .append p _ => some p
    | _ => none

theorem mem_svcPages {p : Nat} {evs : List PEvent} :
    p ∈ svcPages evs ↔ PEvent.svcCall p ∈ evs := by
  unfold svcPages
  rw [List.mem_filterMap]
  constructor
  · rintro ⟨e, he, hf⟩
    cases e <;> simp_all
  · intro h
    exact ⟨_, h, rfl⟩

theorem mem_appendPages {p : Nat} {evs : List PEvent} :
    p ∈ appendPages evs ↔ ∃ as, PEvent.append p as ∈ evs := by
  unfold appendPages
  rw [List.mem_filterMap]
  constructor
  · rintro ⟨e, he, hf⟩
    cases e <;> simp_all
    exact ⟨_, he⟩
  · rintro ⟨as, h⟩
    exact ⟨_, h, rfl⟩

theorem cons_eq_append_cons {α : Type} {x : α} {xs l r : List α} {e : α}
    (h : x :: xs = l ++ e :: r) :
    (l = [] ∧ x = e ∧ xs = r) ∨ ∃ l2, l = x :: l2 ∧ xs = l2 ++ e :: r := by
  cases l with
  | nil =>
    simp only [List.nil_append, List.cons.injEq] at h
    exact Or.inl ⟨rfl, h.1, h.2⟩
  | cons y l2 =>
    simp only [List.cons_append, List.cons.injEq] at h
    exact Or.inr ⟨l2, by rw [h.1], h.2⟩

theorem pipelinePages_nil (ctxOk : Nat → Bool) (svc : Nat → Except String (List AssetDesc))
    (acc : List Asset) (nid : Nat) :
    pipelinePages ctxOk svc [] acc nid = ⟨[], acc, nid, none⟩ := rfl

theorem pipelinePages_cons_skip (ctxOk : Nat → Bool)
    (svc : Nat → Except String (List AssetDesc)) (p : Nat) (rest : List Nat)
    (acc : List Asset) (nid : Nat) (hc : ctxOk p = false) :
    pipelinePages ctxOk svc (p :: rest) acc nid =
      pipelinePages ctxOk svc rest acc nid := by
  simp [pipelinePages, hc]

theorem pipelinePages_cons_err (ctxOk : Nat → Bool)
    (svc : Nat → Except String (List AssetDesc)) (p : Nat) (rest : List Nat)
    (acc : List Asset) (nid : Nat) (e : String) (hc : ctxOk p = true)
    (h : svc p = .error e) :
    pipelinePages ctxOk svc (p :: rest) acc nid =
      ⟨[.raster p, .svcCall p], acc, nid, some e⟩ := by
  simp [pipelinePages, hc, h]

theorem pipelinePages_cons_noassets (ctxOk : Nat → Bool)
    (svc : Nat → Except String (List AssetDesc)) (p : Nat) (rest : List Nat)
    (acc : List Asset) (nid : Nat) (hc : ctxOk p = true) (h : svc p = .ok []) :
    pipelinePages ctxOk svc (p :: rest) acc nid =
      ⟨.raster p :: .svcCall p :: (pipelinePages ctxOk svc rest acc nid).events,
       (pipelinePages ctxOk svc rest acc nid).assets,
       (pipelinePages ctxOk svc rest acc nid).nextId,
       (pipelinePages ctxOk svc rest acc nid).err⟩ := by
  simp [pipelinePages, hc, h]

theorem pipelinePages_cons_assets (ctxOk : Nat → Bool)
    (svc : Nat → Except String (List AssetDesc)) (p : Nat) (rest : List Nat)
    (acc : List Asset) (nid : Nat) (ds : List AssetDesc) (hc : ctxOk p = true)
    (h : svc p = .ok ds) (hne : ds.isEmpty = false) :
    pipelinePages ctxOk svc (p :: rest) acc nid =
      ⟨.raster p :: .svcCall p :: .append p (mkPageAssets ds p nid) ::
         (pipelinePages ctxOk svc rest (acc ++ mkPageAssets ds p nid) (nid + ds.length)).events,
       (pipelinePages ctxOk svc rest (acc ++ mkPageAssets ds p nid) (nid + ds.length)).assets,
       (pipelinePages ctxOk svc rest (acc ++ mkPageAssets ds p nid) (nid + ds.length)).nextId,
       (pipelinePages ctxOk svc rest (acc ++ mkPageAssets ds p nid) (nid + ds.length)).err⟩ := by
  simp [pipelinePages, hc, h, hne]

/-- Ordering invariants of the per-page loop run over the consecutive
pages `range' s k` (with every canvas context available): service calls
happen in strictly increasing page order, appends in non-decreasing page
order, every event concerns a page `≥ s`, and any append for page `p` is
preceded, for every page `s ≤ j < p`, by either an append for `j` or a
service call for `j` that returned no assets. -/
theorem pipeline_order_aux (svc : Nat → Except String (List AssetDesc)) :
    ∀ (k s : Nat) (acc : List Asset) (nid : Nat),
      (∀ p, p ∈ svcPages (pipelinePages (fun _ => true) svc (List.range' s k) acc nid).events → s ≤ p) ∧
      (∀ p, p ∈ appendPages (pipelinePages (fun _ => true) svc (List.range' s k) acc nid).events → s ≤ p) ∧
      (svcPages (pipelinePages (fun _ => true) svc (List.range' s k) acc nid).events).Pairwise (· < ·) ∧
      (appendPages (pipelinePages (fun _ => true) svc (List.range' s k) acc nid).events).Pairwise (· ≤ ·) ∧
      (∀ l r p as,
        (pipelinePages (fun _ => true) svc (List.range' s k) acc nid).events = l ++ .append p as :: r →
        ∀ j, s ≤ j → j < p →
          (∃ as2, PEvent.append j as2 ∈ l) ∨
            (PEvent.svcCall j ∈ l ∧ svc j = .ok [])) := by
  intro k
  induction k with
  | zero =>
    intro s acc nid
    simp only [List.range'_zero, pipelinePages]
    refine ⟨by simp [svcPages], by simp [appendPages], by simp [svcPages],
            by simp [appendPages], ?_⟩
    intro l r p as h
    exact absurd h.symm (by simp)
  | succ k ih =>
    intro s acc nid
    rw [List.range'_succ s k 1]
    cases hsvc : svc s with
    | error e =>
      rw [pipelinePages_cons_err _ svc s _ acc nid e rfl hsvc]
      refine ⟨?_, ?_, ?_, ?_, ?_⟩
      · intro p hp
        simp [svcPages] at hp
        omega
      · intro p hp
        simp [appendPages] at hp
      · simp [svcPages]
      · simp [appendPages]
      · intro l r p as h j hsj hjp
        have h2 : [PEvent.raster s, PEvent.svcCall s] = l ++ PEvent.append p as :: r := h
        have : PEvent.append p as ∈ [PEvent.raster s, PEvent.svcCall s] := by
          rw [h2]
          exact List.mem_append_right _ (List.mem_cons_self _ _)
        simp at this
    | ok ds =>
      cases ds with
      | nil =>
        rw [pipelinePages_cons_noassets _ svc s _ acc nid rfl hsvc]
        obtain ⟨ihA, ihB, ihC, ihD, ihE⟩ := ih (s + 1) acc nid
        refine ⟨?_, ?_, ?_, ?_, ?_⟩
        · intro p hp
          simp only [svcPages, List.filterMap_cons] at hp
          simp only [svcPages] at ihA
          simp at hp
          rcases hp with rfl | hp
          · exact le_refl _
          · have := ihA p (by simpa [svcPages] using hp)
            omega
        · intro p hp
          simp only [appendPages, List.filterMap_cons] at hp
          have := ihB p (by simpa [appendPages] using hp)
          omega
        · simp only [svcPages, List.filterMap_cons]
          simp only [svcPages] at ihC ihA
          refine List.Pairwise.cons ?_ ihC
          intro p hp
          have := ihA p hp
          omega
        · simpa [appendPages] using ihD
        · intro l r p as h j hsj hjp
          rcases cons_eq_append_cons h with ⟨rfl, habs, -⟩ | ⟨l2, rfl, h2⟩
          · exact absurd habs (by simp)
          rcases cons_eq_append_cons h2 with ⟨rfl, habs, -⟩ | ⟨l3, rfl, h3⟩
          · exact absurd habs (by simp)
          rcases Nat.eq_or_lt_of_le hsj with rfl | hlt
          · refine Or.inr ⟨?_, hsvc⟩
            exact List.mem_cons_of_mem _ (List.mem_cons_self _ _)
          · rcases ihE l3 r p as h3 j (by omega) hjp with ⟨as2, hmem⟩ | ⟨hmem, hok⟩
            · exact Or.inl ⟨as2, List.mem_cons_of_mem _ (List.mem_cons_of_mem _ hmem)⟩
            · exact Or.inr ⟨List.mem_cons_of_mem _ (List.mem_cons_of_mem _ hmem), hok⟩
      | cons d ds2 =>
        rw [pipelinePages_cons_assets _ svc s _ acc nid (d :: ds2) rfl hsvc (by simp)]
        obtain ⟨ihA, ihB, ihC, ihD, ihE⟩ :=
          ih (s + 1) (acc ++ mkPageAssets (d :: ds2) s nid) (nid + (d :: ds2).length)
        refine ⟨?_, ?_, ?_, ?_, ?_⟩
        · intro p hp
          simp only [svcPages, List.filterMap_cons] at hp
          simp at hp
          rcases hp with rfl | hp
          · exact le_refl _
          · have := ihA p (by simpa [svcPages] using hp)
            omega
        · intro p hp
          simp only [appendPages, List.filterMap_cons] at hp
          simp at hp
          rcases hp with rfl | hp
          · exact le_refl _
          · have := ihB p (by simpa [appendPages] using hp)
            omega
        · simp only [svcPages, List.filterMap_cons]
          simp only [svcPages] at ihC ihA
          refine List.Pairwise.cons ?_ ihC
          intro p hp
          have := ihA p hp
          omega
        · simp only [appendPages, List.filterMap_cons]
          simp only [appendPages] at ihD ihB
          refine List.Pairwise.cons ?_ ihD
          intro p hp
          have := ihB p hp
          omega
        · intro l r p as h j hsj hjp
          rcases cons_eq_append_cons h with ⟨rfl, habs, -⟩ | ⟨l2, rfl, h2⟩
          · exact absurd habs (by simp)
          rcases cons_eq_append_cons h2 with ⟨rfl, habs, -⟩ | ⟨l3, rfl, h3⟩
          · exact absurd habs (by simp)
          rcases cons_eq_append_cons h3 with ⟨rfl, heq, -⟩ | ⟨l4, rfl, h4⟩
          · have : p = s := by
              cases heq
              rfl
            omega
          rcases Nat.eq_or_lt_of_le hsj with rfl | hlt
          · exact Or.inl ⟨mkPageAssets (d :: ds2) s nid,
              List.mem_cons_of_mem _ (List.mem_cons_of_mem _ (List.mem_cons_self _ _))⟩
          · rcases ihE l4 r p as h4 j (by omega) hjp with ⟨as2, hmem⟩ | ⟨hmem, hok⟩
            · exact Or.inl ⟨as2, List.mem_cons_of_mem _ (List.mem_cons_of_mem _
                (List.mem_cons_of_mem _ hmem))⟩
            · exact Or.inr ⟨List.mem_cons_of_mem _ (List.mem_cons_of_mem _
                (List.mem_cons_of_mem _ hmem)), hok⟩

/-- C1: during a run of the extraction pipeline over pages `1..n` (all
canvas contexts available), pages are processed one at a time in strictly
increasing page order (the service-call pages are pairwise increasing),
the appends into the asset collection are non-decreasing in `pageNumber`,
and whenever the trace appends assets for page `p`, every page
`1 ≤ j < p` has earlier either had its assets appended or been determined
by the service to have zero assets. -/
theorem c1_pipeline_order (n : Nat) (svc : Nat → Except String (List AssetDesc))
    (l r : List PEvent) (p : Nat) (as : List Asset) (j : Nat)
    (hev : (pipelinePages (fun _ => true) svc (List.range' 1 n) [] 0).events
            = l ++ .append p as :: r)
    (hj1 : 1 ≤ j) (hjp : j < p) :
    (svcPages (pipelinePages (fun _ => true) svc (List.range' 1 n) [] 0).events).Pairwise (· < ·) ∧
    (appendPages (pipelinePages (fun _ => true) svc (List.range' 1 n) [] 0).events).Pairwise (· ≤ ·) ∧
    ((∃ as2, PEvent.append j as2 ∈ l) ∨
      (PEvent.svcCall j ∈ l ∧ svc j = .ok [])) := by
  obtain ⟨-, -, hC, hD, hE⟩ := pipeline_order_aux svc n 1 [] 0
  exact ⟨hC, hD, hE l r p as hev j hj1 hjp⟩

/-- Extraction environment for the C1 witness: page 1 yields nothing,
page 2 yields one asset. -/
def c1Svc : Nat → Except String (List AssetDesc) :=
  fun p =>
    if p = 2 then .ok [⟨"G 1", "Graph", "pv", "alt", ["k"], "tx", none⟩]
    else .ok []

/-- Witness for C1 on a concrete two-page run. -/
theorem c1_pipeline_order_witness :
    (pipelinePages (fun _ => true) c1Svc (List.range' 1 2) [] 0).events =
      [PEvent.raster 1, PEvent.svcCall 1, PEvent.raster 2, PEvent.svcCall 2] ++
        PEvent.append 2 [⟨0, "G 1", "Graph", 2, "pv", "alt", ["k"], "tx", none⟩] :: [] ∧
    (1 : Nat) ≤ 1 ∧ (1 : Nat) < 2 ∧
    ((svcPages (pipelinePages (fun _ => true) c1Svc (List.range' 1 2) [] 0).events).Pairwise (· < ·) ∧
     (appendPages (pipelinePages (fun _ => true) c1Svc (List.range' 1 2) [] 0).events).Pairwise (· ≤ ·) ∧
     ((∃ as2, PEvent.append 1 as2 ∈
          [PEvent.raster 1, PEvent.svcCall 1, PEvent.raster 2, PEvent.svcCall 2]) ∨
       (PEvent.svcCall 1 ∈
          [PEvent.raster 1, PEvent.svcCall 1, PEvent.raster 2, PEvent.svcCall 2] ∧
        c1Svc 1 = .ok []))) :=
  ⟨by decide, le_refl 1, by decide,
   c1_pipeline_order 2 c1Svc
     [PEvent.raster 1, PEvent.svcCall 1, PEvent.raster 2, PEvent.svcCall 2] []
     2 [⟨0, "G 1", "Graph", 2, "pv", "alt", ["k"], "tx", none⟩] 1
     (by decide) (le_refl 1) (by decide)⟩

/-! ### C2 / C10 — abort on service failure, skip on missing context -/

/-- The page an event concerns, if any. -/
def eventPage : PEvent → Option Nat
  | .loadDoc => none
  | .raster p => some p
  | .svcCall p => some p
  | .append p _ => some p

theorem pipelinePages_append_ok (ctxOk : Nat → Bool)
    (svc : Nat → Except String (List AssetDesc)) :
    ∀ (l1 l2 : List Nat) (acc : List Asset) (nid : Nat),
      (pipelinePages ctxOk svc l1 acc nid).err = none →
      pipelinePages ctxOk svc (l1 ++ l2) acc nid =
        ⟨(pipelinePages ctxOk svc l1 acc nid).events ++
           (pipelinePages ctxOk svc l2 (pipelinePages ctxOk svc l1 acc nid).assets
             (pipelinePages ctxOk svc l1 acc nid).nextId).events,
         (pipelinePages ctxOk svc l2 (pipelinePages ctxOk svc l1 acc nid).assets
           (pipelinePages ctxOk svc l1 acc nid).nextId).assets,
         (pipelinePages ctxOk svc l2 (pipelinePages ctxOk svc l1 acc nid).assets
           (pipelinePages ctxOk svc l1 acc nid).nextId).nextId,
         (pipelinePages ctxOk svc l2 (pipelinePages ctxOk svc l1 acc nid).assets
           (pipelinePages ctxOk svc l1 acc nid).nextId).err⟩ := by
  intro l1
  induction l1 with
  | nil =>
    intro l2 acc nid h
    simp [pipelinePages_nil]
  | cons p l1 ih =>
    intro l2 acc nid h
    cases hc : ctxOk p with
    | false =>
      rw [List.cons_append, pipelinePages_cons_skip _ svc p _ acc nid hc]
      rw [pipelinePages_cons_skip _ svc p _ acc nid hc] at h ⊢
      exact ih l2 acc nid h
    | true =>
      cases hsvc : svc p with
      | error e =>
        rw [pipelinePages_cons_err _ svc p _ acc nid e hc hsvc] at h
        simp at h
      | ok ds =>
        cases ds with
        | nil =>
          rw [List.cons_append,
              pipelinePages_cons_noassets _ svc p _ acc nid hc hsvc,
              pipelinePages_cons_noassets _ svc p _ acc nid hc hsvc]
          rw [pipelinePages_cons_noassets _ svc p _ acc nid hc hsvc] at h
          simp only at h
          rw [ih l2 acc nid h]
          simp
        | cons d ds2 =>
          rw [List.cons_append,
              pipelinePages_cons_assets _ svc p _ acc nid (d :: ds2) hc hsvc (by simp),
              pipelinePages_cons_assets _ svc p _ acc nid (d :: ds2) hc hsvc (by simp)]
          rw [pipelinePages_cons_assets _ svc p _ acc nid (d :: ds2) hc hsvc (by simp)] at h
          simp only at h
          rw [ih l2 _ _ h]
          simp

theorem pipelinePages_err_none (ctxOk : Nat → Bool)
    (svc : Nat → Except String (List AssetDesc)) :
    ∀ (ps : List Nat) (acc : List Asset) (nid : Nat),
      (∀ p ∈ ps, ctxOk p = true → ∃ ds, svc p = .ok ds) →
      (pipelinePages ctxOk svc ps acc nid).err = none := by
  intro ps
  induction ps with
  | nil =>
    intro acc nid _
    simp [pipelinePages_nil]
  | cons p rest ih =>
    intro acc nid h
    cases hc : ctxOk p with
    | false =>
      rw [pipelinePages_cons_skip _ svc p _ acc nid hc]
      exact ih acc nid fun q hq => h q (List.mem_cons_of_mem _ hq)
    | true =>
      obtain ⟨ds, hds⟩ := h p (List.mem_cons_self _ _) hc
      cases ds with
      | nil =>
        rw [pipelinePages_cons_noassets _ svc p _ acc nid hc hds]
        exact ih acc nid fun q hq => h q (List.mem_cons_of_mem _ hq)
      | cons d ds2 =>
        rw [pipelinePages_cons_assets _ svc p _ acc nid (d :: ds2) hc hds (by simp)]
        exact ih _ _ fun q hq => h q (List.mem_cons_of_mem _ hq)

theorem pipelinePages_event_pages (ctxOk : Nat → Bool)
    (svc : Nat → Except String (List AssetDesc)) :
    ∀ (ps : List Nat) (acc : List Asset) (nid : Nat) (e : PEvent) (p : Nat),
      e ∈ (pipelinePages ctxOk svc ps acc nid).events →
      eventPage e = some p →
      p ∈ ps ∧ ctxOk p = true := by
  intro ps
  induction ps with
  | nil =>
    intro acc nid e p he _
    simp [pipelinePages_nil] at he
  | cons q rest ih =>
    intro acc nid e p he hpage
    cases hc : ctxOk q with
    | false =>
      rw [pipelinePages_cons_skip _ svc q _ acc nid hc] at he
      obtain ⟨hmem, hctx⟩ := ih acc nid e p he hpage
      exact ⟨List.mem_cons_of_mem _ hmem, hctx⟩
    | true =>
      cases hsvc : svc q with
      | error msg =>
        rw [pipelinePages_cons_err _ svc q _ acc nid msg hc hsvc] at he
        simp only at he
        have : e = PEvent.raster q ∨ e = PEvent.svcCall q := by
          simpa using he
        rcases this with rfl | rfl <;>
          · simp only [eventPage, Option.some.injEq] at hpage
            subst hpage
            exact ⟨List.mem_cons_self _ _, hc⟩
      | ok ds =>
        cases ds with
        | nil =>
          rw [pipelinePages_cons_noassets _ svc q _ acc nid hc hsvc] at he
          simp only at he
          rcases List.mem_cons.mp he with rfl | he2
          · simp only [eventPage, Option.some.injEq] at hpage
            subst hpage
            exact ⟨List.mem_cons_self _ _, hc⟩
          rcases List.mem_cons.mp he2 with rfl | he3
          · simp only [eventPage, Option.some.injEq] at hpage
            subst hpage
            exact ⟨List.mem_cons_self _ _, hc⟩
          · obtain ⟨hmem, hctx⟩ := ih acc nid e p he3 hpage
            exact ⟨List.mem_cons_of_mem _ hmem, hctx⟩
        | cons d ds2 =>
          rw [pipelinePages_cons_assets _ svc q _ acc nid (d :: ds2) hc hsvc (by simp)] at he
          simp only at he
          rcases List.mem_cons.mp he with rfl | he2
          · simp only [eventPage, Option.some.injEq] at hpage
            subst hpage
            exact ⟨List.mem_cons_self _ _, hc⟩
          rcases List.mem_cons.mp he2 with rfl | he3
          · simp only [eventPage, Option.some.injEq] at hpage
            subst hpage
            exact ⟨List.mem_cons_self _ _, hc⟩
          rcases List.mem_cons.mp he3 with rfl | he4
          · simp only [eventPage, Option.some.injEq] at hpage
            subst hpage
            exact ⟨List.mem_cons_self _ _, hc⟩
          · obtain ⟨hmem, hctx⟩ := ih _ _ e p he4 hpage
            exact ⟨List.mem_cons_of_mem _ hmem, hctx⟩

theorem mem_mkPageAssets_page {a : Asset} {ds : List AssetDesc} {q nid : Nat}
    (h : a ∈ mkPageAssets ds q nid) : a.pageNumber = q := by
  unfold mkPageAssets at h
  rw [List.mem_map] at h
  obtain ⟨⟨i, d⟩, _, rfl⟩ := h
  rfl

theorem pipelinePages_assets_pages (ctxOk : Nat → Bool)
    (svc : Nat → Except String (List AssetDesc)) :
    ∀ (ps : List Nat) (acc : List Asset) (nid : Nat) (a : Asset),
      a ∈ (pipelinePages ctxOk svc ps acc nid).assets →
      a ∈ acc ∨ (a.pageNumber ∈ ps ∧ ctxOk a.pageNumber = true) := by
  intro ps
  induction ps with
  | nil =>
    intro acc nid a ha
    simp [pipelinePages_nil] at ha
    exact Or.inl ha
  | cons q rest ih =>
    intro acc nid a ha
    cases hc : ctxOk q with
    | false =>
      rw [pipelinePages_cons_skip _ svc q _ acc nid hc] at ha
      rcases ih acc nid a ha with h | ⟨hmem, hctx⟩
      · exact Or.inl h
      · exact Or.inr ⟨List.mem_cons_of_mem _ hmem, hctx⟩
    | true =>
      cases hsvc : svc q with
      | error msg =>
        rw [pipelinePages_cons_err _ svc q _ acc nid msg hc hsvc] at ha
        exact Or.inl ha
      | ok ds =>
        cases ds with
        | nil =>
          rw [pipelinePages_cons_noassets _ svc q _ acc nid hc hsvc] at ha
          simp only at ha
          rcases ih acc nid a ha with h | ⟨hmem, hctx⟩
          · exact Or.inl h
          · exact Or.inr ⟨List.mem_cons_of_mem _ hmem, hctx⟩
        | cons d ds2 =>
          rw [pipelinePages_cons_assets _ svc q _ acc nid (d :: ds2) hc hsvc (by simp)] at ha
          simp only at ha
          rcases ih _ _ a ha with h | ⟨hmem, hctx⟩
          · rcases List.mem_append.mp h with h2 | h2
            · exact Or.inl h2
            · have := mem_mkPageAssets_page h2
              rw [this]
              exact Or.inr ⟨List.mem_cons_self _ _, hc⟩
          · exact Or.inr ⟨List.mem_cons_of_mem _ hmem, hctx⟩

theorem handleProcess_err_run (st : MEState) (f : PdfFile) (u : User)
    (ctxOk : Nat → Bool) (svc : Nat → Except String (List AssetDesc)) (e : String)
    (hfile : st.file = some f) (hload : f.loadOk = true)
    (hbudget : u.tokensUsed < u.tokenCap)
    (herr : (pipelinePages ctxOk svc (List.range' 1 f.pages) [] 0).err = some e) :
    handleProcess (some u) ctxOk svc st =
      ({ st with status := .error, statusMessage := e,
                 extractedAssets := (pipelinePages ctxOk svc (List.range' 1 f.pages) [] 0).assets,
                 pdfLoaded := true },
       PEvent.loadDoc :: (pipelinePages ctxOk svc (List.range' 1 f.pages) [] 0).events,
       [⟨.error, e⟩]) := by
  have hb : ¬ u.tokenCap ≤ u.tokensUsed := by omega
  simp [handleProcess, hfile, hload, hb, herr]

theorem handleProcess_done_run (st : MEState) (f : PdfFile) (u : User)
    (ctxOk : Nat → Bool) (svc : Nat → Except String (List AssetDesc))
    (hfile : st.file = some f) (hload : f.loadOk = true)
    (hbudget : u.tokensUsed < u.tokenCap)
    (hok : (pipelinePages ctxOk svc (List.range' 1 f.pages) [] 0).err = none) :
    handleProcess (some u) ctxOk svc st =
      ({ st with status := .done, statusMessage := "",
                 extractedAssets := (pipelinePages ctxOk svc (List.range' 1 f.pages) [] 0).assets,
                 pdfLoaded := true },
       PEvent.loadDoc :: (pipelinePages ctxOk svc (List.range' 1 f.pages) [] 0).events,
       [⟨.success, "Extraction complete!"⟩]) := by
  have hb : ¬ u.tokenCap ≤ u.tokensUsed := by omega
  simp [handleProcess, hfile, hload, hb, hok]

/-- C2: if the metadata service fails for page `k` (all earlier pages
succeeding, every canvas context available), the whole run aborts: the
session state becomes `error` carrying the service's message, the error is
surfaced as a toast, the collection holds exactly the assets already
appended from pages before `k` (no rollback), and no later page `p > k` is
rasterized or sent to the service. -/
theorem c2_abort_on_failure (st : MEState) (f : PdfFile) (u : User)
    (svc : Nat → Except String (List AssetDesc)) (n k : Nat) (e : String) (p : Nat)
    (hfile : st.file = some f) (hload : f.loadOk = true) (hpages : f.pages = n)
    (hbudget : u.tokensUsed < u.tokenCap)
    (hk1 : 1 ≤ k) (hkn : k ≤ n) (he : svc k = .error e)
    (hprev : ∀ j, 1 ≤ j → j < k → ∃ ds, svc j = .ok ds)
    (hp : k < p) :
    (handleProcess (some u) (fun _ => true) svc st).1.status = .error ∧
    (handleProcess (some u) (fun _ => true) svc st).1.statusMessage = e ∧
    (handleProcess (some u) (fun _ => true) svc st).2.2 = [⟨.error, e⟩] ∧
    (handleProcess (some u) (fun _ => true) svc st).1.extractedAssets =
      (pipelinePages (fun _ => true) svc (List.range' 1 (k - 1)) [] 0).assets ∧
    PEvent.svcCall p ∉ (handleProcess (some u) (fun _ => true) svc st).2.1 ∧
    PEvent.raster p ∉ (handleProcess (some u) (fun _ => true) svc st).2.1 := by
  have hsplit : List.range' 1 n = List.range' 1 (k - 1) ++ List.range' k (n - k + 1) := by
    have hadd := List.range'_append_1 1 (k - 1) (n - k + 1)
    have h1 : 1 + (k - 1) = k := by omega
    have h2 : (n - k + 1) + (k - 1) = n := by omega
    rw [h1, h2] at hadd
    exact hadd.symm
  have h1err : (pipelinePages (fun _ => true) svc (List.range' 1 (k - 1)) [] 0).err = none := by
    apply pipelinePages_err_none
    intro q hq _
    rw [List.mem_range'_1] at hq
    exact hprev q hq.1 (by omega)
  have hseg : List.range' k (n - k + 1) = k :: List.range' (k + 1) (n - k) :=
    List.range'_succ k (n - k) 1
  have hfull : pipelinePages (fun _ => true) svc (List.range' 1 n) [] 0 =
      ⟨(pipelinePages (fun _ => true) svc (List.range' 1 (k - 1)) [] 0).events ++
         [PEvent.raster k, PEvent.svcCall k],
       (pipelinePages (fun _ => true) svc (List.range' 1 (k - 1)) [] 0).assets,
       (pipelinePages (fun _ => true) svc (List.range' 1 (k - 1)) [] 0).nextId,
       some e⟩ := by
    rw [hsplit, pipelinePages_append_ok _ svc _ _ _ _ h1err, hseg,
        pipelinePages_cons_err _ svc k _ _ _ e rfl he]
  have herr : (pipelinePages (fun _ => true) svc (List.range' 1 f.pages) [] 0).err = some e := by
    rw [hpages, hfull]
  have hrun := handleProcess_err_run st f u (fun _ => true) svc e hfile hload hbudget herr
  rw [hrun]
  refine ⟨rfl, rfl, rfl, ?_, ?_, ?_⟩
  · simp only
    rw [hpages, hfull]
  · intro hmem
    simp only at hmem
    rw [hpages, hfull] at hmem
    rcases List.mem_cons.mp hmem with heq | hmem2
    · simp at heq
    rcases List.mem_append.mp hmem2 with hmem3 | hmem3
    · have := pipelinePages_event_pages (fun _ => true) svc _ _ _ _ p hmem3 rfl
      rw [List.mem_range'_1] at this
      omega
    · simp at hmem3
      omega
  · intro hmem
    simp only at hmem
    rw [hpages, hfull] at hmem
    rcases List.mem_cons.mp hmem with heq | hmem2
    · simp at heq
    rcases List.mem_append.mp hmem2 with hmem3 | hmem3
    · have := pipelinePages_event_pages (fun _ => true) svc _ _ _ _ p hmem3 rfl
      rw [List.mem_range'_1] at this
      omega
    · simp at hmem3
      omega

/-- The dropped file of the C2 witness. -/
def c2File : PdfFile := ⟨"doc.pdf", 9, 2, true, ""⟩

/-- The component state of the C2 witness. -/
def c2St : MEState := { file := some c2File }

/-- The service of the C2 witness: page 1 yields one asset, page 2 fails. -/
def c2Svc : Nat → Except String (List AssetDesc) :=
  fun p =>
    if p = 2 then .error "Failed to process page with Gemini API."
    else .ok [⟨"F 1", "Figure", "pv", "alt", ["k"], "tx", none⟩]

/-- Witness for C2: the service fails on page 2 of a 2-page document. -/
theorem c2_abort_on_failure_witness :
    c2St.file = some c2File ∧ c2File.loadOk = true ∧ c2File.pages = 2 ∧
    (5 : Nat) < 10 ∧ (1 : Nat) ≤ 2 ∧ (2 : Nat) ≤ 2 ∧
    c2Svc 2 = .error "Failed to process page with Gemini API." ∧
    (2 : Nat) < 3 ∧
    ((handleProcess (some ⟨1, 5, 10⟩) (fun _ => true) c2Svc c2St).1.status = .error ∧
     (handleProcess (some ⟨1, 5, 10⟩) (fun _ => true) c2Svc c2St).1.statusMessage =
       "Failed to process page with Gemini API." ∧
     (handleProcess (some ⟨1, 5, 10⟩) (fun _ => true) c2Svc c2St).2.2 =
       [⟨.error, "Failed to process page with Gemini API."⟩] ∧
     (handleProcess (some ⟨1, 5, 10⟩) (fun _ => true) c2Svc c2St).1.extractedAssets =
       (pipelinePages (fun _ => true) c2Svc (List.range' 1 (2 - 1)) [] 0).assets ∧
     PEvent.svcCall 3 ∉ (handleProcess (some ⟨1, 5, 10⟩) (fun _ => true) c2Svc c2St).2.1 ∧
     PEvent.raster 3 ∉ (handleProcess (some ⟨1, 5, 10⟩) (fun _ => true) c2Svc c2St).2.1) :=
  ⟨rfl, rfl, rfl, by omega, by omega, by omega, rfl, by omega,
   c2_abort_on_failure c2St c2File ⟨1, 5, 10⟩ c2Svc 2 2
     "Failed to process page with Gemini API." 3 rfl rfl rfl (by decide)
     (by decide) (by decide) rfl
     (fun j h1 h2 => by
       have hj : j = 1 := by omega
       subst hj
       exact ⟨[⟨"F 1", "Figure", "pv", "alt", ["k"], "tx", none⟩], rfl⟩)
     (by omega)⟩

/-- C10: if acquiring a 2-D drawing context fails for page `p0`
(`ctxOk p0 = false`) while the service succeeds on every page whose
context is available, then the run completes with status `done`, page `p0`
is silently skipped — it is never rasterized, never sent to the service,
no append event carries it — and no asset in the final collection has
`pageNumber = p0`. -/
theorem c10_ctx_skip (st : MEState) (f : PdfFile) (u : User)
    (ctxOk : Nat → Bool) (svc : Nat → Except String (List AssetDesc))
    (p0 : Nat) (a : Asset) (asL : List Asset)
    (hfile : st.file = some f) (hload : f.loadOk = true)
    (hbudget : u.tokensUsed < u.tokenCap)
    (h0 : ctxOk p0 = false)
    (hok : ∀ p, ctxOk p = true → ∃ ds, svc p = .ok ds)
    (ha : a ∈ (handleProcess (some u) ctxOk svc st).1.extractedAssets) :
    (handleProcess (some u) ctxOk svc st).1.status = .done ∧
    PEvent.svcCall p0 ∉ (handleProcess (some u) ctxOk svc st).2.1 ∧
    PEvent.raster p0 ∉ (handleProcess (some u) ctxOk svc st).2.1 ∧
    PEvent.append p0 asL ∉ (handleProcess (some u) ctxOk svc st).2.1 ∧
    a.pageNumber ≠ p0 := by
  have herr : (pipelinePages ctxOk svc (List.range' 1 f.pages) [] 0).err = none :=
    pipelinePages_err_none ctxOk svc _ [] 0 (fun p _ hc => hok p hc)
  have hrun := handleProcess_done_run st f u ctxOk svc hfile hload hbudget herr
  rw [hrun] at ha ⊢
  simp only at ha
  refine ⟨rfl, ?_, ?_, ?_, ?_⟩
  · intro hmem
    simp only at hmem
    rcases List.mem_cons.mp hmem with heq | hmem2
    · simp at heq
    · have := pipelinePages_event_pages ctxOk svc _ _ _ _ p0 hmem2 rfl
      rw [this.2] at h0
      simp at h0
  · intro hmem
    simp only at hmem
    rcases List.mem_cons.mp hmem with heq | hmem2
    · simp at heq
    · have := pipelinePages_event_pages ctxOk svc _ _ _ _ p0 hmem2 rfl
      rw [this.2] at h0
      simp at h0
  · intro hmem
    simp only at hmem
    rcases List.mem_cons.mp hmem with heq | hmem2
    · simp at heq
    · have := pipelinePages_event_pages ctxOk svc _ _ _ _ p0 hmem2 rfl
      rw [this.2] at h0
      simp at h0
  · rcases pipelinePages_assets_pages ctxOk svc _ _ _ a ha with h | ⟨-, hctx⟩
    · simp at h
    · intro hcontra
      rw [hcontra] at hctx
      rw [hctx] at h0
      simp at h0

/-- The service of the C10 witness: succeeds everywhere, one asset on
page 2. -/
def c10Svc : Nat → Except String (List AssetDesc) :=
  fun p => .ok (if p = 2 then [⟨"G 1", "Graph", "pv", "alt", ["k"], "tx", none⟩] else [])

/-- The context environment of the C10 witness: the canvas context fails
exactly on page 1. -/
def c10Ctx : Nat → Bool := fun p => p != 1

/-- The component state of the C10 witness. -/
def c10St : MEState := { file := some ⟨"doc.pdf", 9, 2, true, ""⟩ }

/-- Witness for C10: page 1's context fails on a 2-page document whose
only asset is on page 2. -/
theorem c10_ctx_skip_witness :
    c10St.file = some ⟨"doc.pdf", 9, 2, true, ""⟩ ∧
    (5 : Nat) < 10 ∧ c10Ctx 1 = false ∧
    ⟨0, "G 1", "Graph", 2, "pv", "alt", ["k"], "tx", none⟩ ∈
      (handleProcess (some ⟨1, 5, 10⟩) c10Ctx c10Svc c10St).1.extractedAssets ∧
    ((handleProcess (some ⟨1, 5, 10⟩) c10Ctx c10Svc c10St).1.status = .done ∧
     PEvent.svcCall 1 ∉ (handleProcess (some ⟨1, 5, 10⟩) c10Ctx c10Svc c10St).2.1 ∧
     PEvent.raster 1 ∉ (handleProcess (some ⟨1, 5, 10⟩) c10Ctx c10Svc c10St).2.1 ∧
     PEvent.append 1 [] ∉ (handleProcess (some ⟨1, 5, 10⟩) c10Ctx c10Svc c10St).2.1 ∧
     (⟨0, "G 1", "Graph", 2, "pv", "alt", ["k"], "tx", none⟩ : Asset).pageNumber ≠ 1) :=
  ⟨rfl, by omega, by decide, by decide,
   c10_ctx_skip c10St ⟨"doc.pdf", 9, 2, true, ""⟩ ⟨1, 5, 10⟩ c10Ctx c10Svc 1
     ⟨0, "G 1", "Graph", 2, "pv", "alt", ["k"], "tx", none⟩ []
     rfl rfl (by decide) (by decide) (fun p _ => ⟨_, rfl⟩) (by decide)⟩

/-! ### C9 — lazy renderer: one rasterization per load, cancellation -/

/-- Inductive invariant of the `LazyPdfPage` machine: at most one
`getPage` call; once a call was made the deps either still read
`(intersecting, not rendered)` or the page has rendered; intersecting
implies unobserved; started renders come from registered resolved runs,
without duplicates; every run is cancelled or current; after teardown
every run is cancelled. -/
def LPInv (s : LPState) : Prop :=
  s.getPageCalls ≤ 1 ∧
  (s.getPageCalls = 1 → s.isIntersecting = true ∧
    (s.lastDeps = some (true, false) ∨ s.isRendered = true)) ∧
  (s.isIntersecting = true → s.stillObserved = false) ∧
  (∀ r ∈ s.renderStarted, r < s.getPageCalls) ∧
  (∀ r ∈ s.renderStarted, r ∈ s.resolvedRuns) ∧
  s.renderStarted.Nodup ∧
  (∀ r, r < s.getPageCalls → r ∈ s.cancelledRuns ∨ s.currentRun = some r) ∧
  (∀ r, s.currentRun = some r → r < s.getPageCalls) ∧
  (s.tornDown = true → ∀ r, r < s.getPageCalls → r ∈ s.cancelledRuns)

theorem lpInv_init : LPInv {} := by
  refine ⟨by simp, by simp, by simp, by simp, by simp, by simp, ?_, by simp, ?_⟩
  · intro r hr
    simp at hr
  · intro _ r hr
    simp at hr

theorem lpStep_inv (s : LPState) (e : LPEvent) (h : LPInv s) : LPInv (lpStep s e) := by
  obtain ⟨h1, h2, h3, h4, h5, h6, h7, h8, h9⟩ := h
  cases e with
  | intersect isIn =>
    simp only [lpStep]
    split_ifs with ht hobs
    · exact ⟨h1, h2, h3, h4, h5, h6, h7, h8, h9⟩
    · refine ⟨h1, ?_, ?_, h4, h5, h6, h7, h8, h9⟩
      · intro hg
        exact ⟨rfl, (h2 hg).2⟩
      · intro _
        rfl
    · exact ⟨h1, h2, h3, h4, h5, h6, h7, h8, h9⟩
  | effectRun =>
    simp only [lpStep]
    split_ifs with ht hdeps hguard
    · exact ⟨h1, h2, h3, h4, h5, h6, h7, h8, h9⟩
    · exact ⟨h1, h2, h3, h4, h5, h6, h7, h8, h9⟩
    · have hI : s.isIntersecting = true := by
        simpa using (Bool.and_eq_true _ _ |>.mp hguard).1
      have hR : s.isRendered = false := by
        have := (Bool.and_eq_true _ _ |>.mp hguard).2
        simpa using this
      have hzero : s.getPageCalls = 0 := by
        by_contra hne
        have hone : s.getPageCalls = 1 := by omega
        rcases (h2 hone).2 with hld | hrd
        · apply hdeps
          rw [hld, hI, hR]
        · rw [hrd] at hR
          exact Bool.true_eq_false.mp hR
      refine ⟨?_, ?_, h3, ?_, h5, h6, ?_, ?_, ?_⟩
      · show s.getPageCalls + 1 ≤ 1
        omega
      · intro _
        refine ⟨hI, Or.inl ?_⟩
        simp only
        rw [hI, hR]
      · intro r hr
        have := h4 r hr
        simp only
        omega
      · intro r hr
        simp only at hr ⊢
        rcases Nat.lt_succ_iff_lt_or_eq.mp hr with hlt | rfl
        · rcases h7 r hlt with hc | hcur
          · left
            cases hcr : s.currentRun <;> simp [hcr, hc]
          · left
            rw [hcur]
            exact List.mem_cons_self _ _
        · right
          rfl
      · intro r hr
        simp only at hr ⊢
        have : s.getPageCalls = r := by
          simpa using hr
        omega
      · intro htd
        simp only at htd
        rw [htd] at ht
        simp at ht
    · refine ⟨h1, ?_, h3, h4, h5, h6, ?_, ?_, ?_⟩
      · intro hone
        obtain ⟨hI, -⟩ := h2 hone
        refine ⟨hI, Or.inr ?_⟩
        simp only
        by_contra hR
        have hR2 : s.isRendered = false := by
          simpa using hR
        apply hguard
        rw [hI, hR2]
        rfl
      · intro r hr
        simp only at hr ⊢
        rcases h7 r hr with hc | hcur
        · left
          cases hcr : s.currentRun <;> simp [hcr, hc]
        · left
          rw [hcur]
          exact List.mem_cons_self _ _
      · intro r hr
        simp only at hr
        exact absurd hr (by simp)
      · intro htd
        simp only at htd
        rw [htd] at ht
        simp at ht
  | pageResolved r0 =>
    simp only [lpStep]
    split_ifs with hres hlt hcanc
    · exact ⟨h1, h2, h3, h4, h5, h6, h7, h8, h9⟩
    · refine ⟨h1, h2, h3, h4, ?_, h6, h7, h8, h9⟩
      intro r hr
      simp only
      exact List.mem_cons_of_mem _ (h5 r hr)
    · refine ⟨h1, h2, h3, ?_, ?_, ?_, h7, h8, h9⟩
      · intro r hr
        simp only at hr ⊢
        rcases List.mem_cons.mp hr with rfl | hr2
        · exact hlt
        · exact h4 r hr2
      · intro r hr
        simp only at hr ⊢
        rcases List.mem_cons.mp hr with rfl | hr2
        · exact List.mem_cons_self _ _
        · exact List.mem_cons_of_mem _ (h5 r hr2)
      · simp only
        refine List.nodup_cons.mpr ⟨?_, h6⟩
        intro hmem
        exact hres (h5 r0 hmem)
    · exact ⟨h1, h2, h3, h4, h5, h6, h7, h8, h9⟩
  | renderDone r0 =>
    simp only [lpStep]
    split_ifs with hcond
    · refine ⟨h1, ?_, h3, h4, h5, h6, h7, h8, h9⟩
      intro hone
      exact ⟨(h2 hone).1, Or.inr rfl⟩
    · exact ⟨h1, h2, h3, h4, h5, h6, h7, h8, h9⟩
  | teardown =>
    refine ⟨h1, h2, h3, h4, h5, h6, ?_, h8, ?_⟩
    · intro r hr
      simp only [lpStep] at hr ⊢
      rcases h7 r hr with hc | hcur
      · left
        cases hcr : s.currentRun <;> simp [hcr, hc]
      · left
        rw [hcur]
        exact List.mem_cons_self _ _
    · intro _ r hr
      simp only [lpStep] at hr ⊢
      rcases h7 r hr with hc | hcur
      · cases hcr : s.currentRun <;> simp [hcr, hc]
      · rw [hcur]
        exact List.mem_cons_self _ _

theorem lpStep_isIntersecting_mono (s : LPState) (e : LPEvent)
    (h : s.isIntersecting = true) : (lpStep s e).isIntersecting = true := by
  cases e <;> simp only [lpStep] <;>
    first
      | (split_ifs <;> first | exact h | rfl)
      | exact h
      | rfl

theorem lpStep_tornDown_mono (s : LPState) (e : LPEvent)
    (h : s.tornDown = true) : (lpStep s e).tornDown = true := by
  cases e <;> simp only [lpStep] <;>
    first
      | (split_ifs <;> first | exact h | rfl)
      | exact h
      | rfl

theorem lpStep_frozen (s : LPState) (e : LPEvent) (hInv : LPInv s)
    (ht : s.tornDown = true) (hr : s.isRendered = false) :
    (lpStep s e).isRendered = false := by
  obtain ⟨-, -, -, h4, -, -, -, -, h9⟩ := hInv
  cases e with
  | intersect isIn =>
    simp only [lpStep]
    split_ifs <;> exact hr
  | effectRun =>
    simp [lpStep, ht, hr]
  | pageResolved r0 =>
    simp only [lpStep]
    split_ifs <;> exact hr
  | renderDone r0 =>
    simp only [lpStep]
    split_ifs with hcond
    · exfalso
      obtain ⟨hmem, hnc⟩ := hcond
      exact hnc (h9 ht r0 (h4 r0 hmem))
    · exact hr
  | teardown => exact hr

theorem foldl_preserve (P : LPState → Prop)
    (hP : ∀ s e, P s → P (lpStep s e)) :
    ∀ (t : List LPEvent) (s : LPState), P s → P (t.foldl lpStep s) := by
  intro t
  induction t with
  | nil => exact fun s h => h
  | cons e t ih => exact fun s h => ih _ (hP s e h)

theorem lpRun_inv (t : List LPEvent) : LPInv (lpRun t) :=
  foldl_preserve LPInv lpStep_inv t {} lpInv_init

theorem renderStarted_le_one (s : LPState) (h : LPInv s) :
    s.renderStarted.length ≤ 1 := by
  obtain ⟨h1, -, -, h4, -, h6, -⟩ := h
  cases hrs : s.renderStarted with
  | nil => simp
  | cons a l =>
    cases l with
    | nil => simp
    | cons b l2 =>
      exfalso
      rw [hrs] at h4 h6
      have ha := h4 a (List.mem_cons_self _ _)
      have hb := h4 b (List.mem_cons_of_mem _ (List.mem_cons_self _ _))
      have hab : a = b := by omega
      rcases List.nodup_cons.mp h6 with ⟨hnab, -⟩
      exact hnab (hab ▸ List.mem_cons_self _ _)

/-- C9: for a page of a loaded document, over EVERY event trace of the
lazy renderer: at most one rasterization is started per document load
(the `renderStarted` run set of every reachable state has at most one
element); the Unobserved → Observed transition is one-shot — once the
page is `Observed` (`isIntersecting`) the observer has already detached
(`stillObserved = false`) and the state never reverts in any
continuation; and if the component is torn down before completion, a
later resolution of the in-flight render never marks the page
rendered. -/
theorem c9_lazy_renderer (t1 t2 : List LPEvent) :
    (lpRun (t1 ++ t2)).renderStarted.length ≤ 1 ∧
    ((lpRun t1).isIntersecting = true →
      (lpRun (t1 ++ t2)).isIntersecting = true ∧
      (lpRun t1).stillObserved = false) ∧
    ((lpRun t1).tornDown = true → (lpRun t1).isRendered = false →
      (lpRun (t1 ++ t2)).isRendered = false) := by
  have happ : lpRun (t1 ++ t2) = t2.foldl lpStep (lpRun t1) := by
    simp [lpRun, List.foldl_append]
  have hInv1 : LPInv (lpRun t1) := lpRun_inv t1
  refine ⟨renderStarted_le_one _ (lpRun_inv (t1 ++ t2)), ?_, ?_⟩
  · intro hobs
    refine ⟨?_, hInv1.2.2.1 hobs⟩
    rw [happ]
    exact foldl_preserve (fun s => s.isIntersecting = true)
      lpStep_isIntersecting_mono t2 _ hobs
  · intro htd hnr
    rw [happ]
    have hkey := foldl_preserve
      (fun s => LPInv s ∧ s.tornDown = true ∧ s.isRendered = false)
      (fun s e hP => ⟨lpStep_inv s e hP.1, lpStep_tornDown_mono s e hP.2.1,
        lpStep_frozen s e hP.1 hP.2.1 hP.2.2⟩)
      t2 _ ⟨hInv1, htd, hnr⟩
    exact hkey.2.2

/-- Witness for C9: observe, run the effect, resolve `getPage` (render
starts), tear down, then the render resolves — only one rasterization was
started, the page stays observed, and the cancelled render never marks
the page rendered. -/
theorem c9_lazy_renderer_witness :
    (lpRun ([.intersect true, .effectRun, .pageResolved 0, .teardown] ++
       [.renderDone 0])).renderStarted.length ≤ 1 ∧
    ((lpRun [.intersect true, .effectRun, .pageResolved 0, .teardown]).isIntersecting = true ∧
     (lpRun ([.intersect true, .effectRun, .pageResolved 0, .teardown] ++
        [.renderDone 0])).isIntersecting = true ∧
     (lpRun [.intersect true, .effectRun, .pageResolved 0, .teardown]).stillObserved = false) ∧
    ((lpRun [.intersect true, .effectRun, .pageResolved 0, .teardown]).tornDown = true ∧
     (lpRun [.intersect true, .effectRun, .pageResolved 0, .teardown]).isRendered = false ∧
     (lpRun ([.intersect true, .effectRun, .pageResolved 0, .teardown] ++
        [.renderDone 0])).isRendered = false) :=
  ⟨(c9_lazy_renderer [.intersect true, .effectRun, .pageResolved 0, .teardown]
      [.renderDone 0]).1,
   ⟨by decide,
    (c9_lazy_renderer [.intersect true, .effectRun, .pageResolved 0, .teardown]
      [.renderDone 0]).2.1 (by decide)⟩,
   ⟨by decide, by decide,
    (c9_lazy_renderer [.intersect true, .effectRun, .pageResolved 0, .teardown]
      [.renderDone 0]).2.2 (by decide) (by decide)⟩⟩

/-! ### C7 — CSV export and round-trip -/

theorem readQuoted_quote_quote (cs : List Char) :
    readQuoted ('"' :: '"' :: cs) = (readQuoted cs).map fun p => ('"' :: p.1, p.2) := by
  simp [readQuoted]

theorem readQuoted_quote_other (c : Char) (cs : List Char) (h : c ≠ '"') :
    readQuoted ('"' :: c :: cs) = some ([], c :: cs) := by
  simp [readQuoted, h]

theorem readQuoted_quote_nil : readQuoted ['"'] = some ([], []) := rfl

theorem readQuoted_other (c : Char) (cs : List Char) (h : c ≠ '"') :
    readQuoted (c :: cs) = (readQuoted cs).map fun p => (c :: p.1, p.2) := by
  conv_lhs => unfold readQuoted
  rw [if_neg h]

/-- Reading a quoted body over an escaped string recovers the string, as
long as the remaining input does not begin with a quote. -/
theorem readQuoted_escQuotes (s t : List Char) (ht : headIsQuote t = false) :
    readQuoted (escQuotes s ++ '"' :: t) = some (s, t) := by
  induction s with
  | nil =>
    simp only [escQuotes, List.nil_append]
    cases t with
    | nil => exact readQuoted_quote_nil
    | cons c2 t2 =>
      have hc2 : c2 ≠ '"' := by
        simpa [headIsQuote] using ht
      exact readQuoted_quote_other c2 t2 hc2
  | cons a s' ih =>
    by_cases ha : a = '"'
    · subst ha
      rw [show escQuotes ('"' :: s') = '"' :: '"' :: escQuotes s' from by
            simp [escQuotes]]
      simp only [List.cons_append]
      rw [readQuoted_quote_quote, ih]
      rfl
    · rw [show escQuotes (a :: s') = a :: escQuotes s' from by
            simp [escQuotes, ha]]
      simp only [List.cons_append]
      rw [readQuoted_other a _ ha, ih]
      rfl

theorem hasCRLF_cons_false {c : Char} {cs : List Char}
    (h : hasCRLF (c :: cs) = false) : hasCRLF cs = false := by
  by_cases hc : c = '\r'
  · simp [hasCRLF, hc] at h
    exact h.2
  · simpa [hasCRLF, hc] using h

theorem readUnquoted_comma_head (cs : List Char) :
    readUnquoted (',' :: cs) = ([], ',' :: cs) := by
  simp [readUnquoted]

theorem readUnquoted_cons_content (c : Char) (cs : List Char) (h1 : c ≠ ',')
    (h2 : c = '\r' → headIsLF cs = false) :
    readUnquoted (c :: cs) = (c :: (readUnquoted cs).1, (readUnquoted cs).2) := by
  by_cases hcr : c = '\r'
  · simp [readUnquoted, h1, hcr, h2 hcr]
  · simp [readUnquoted, h1, hcr]

/-- Reading an unquoted field over a comma-free, quote-free, CRLF-free
string followed by a comma stops exactly at the comma. -/
theorem readUnquoted_comma (s t : List Char) (h1 : ',' ∉ s)
    (h3 : hasCRLF s = false) :
    readUnquoted (s ++ ',' :: t) = (s, ',' :: t) := by
  induction s with
  | nil => simpa using readUnquoted_comma_head t
  | cons c s' ih =>
    have hc1 : c ≠ ',' := fun hc => h1 (hc ▸ List.mem_cons_self _ _)
    have hLF : c = '\r' → headIsLF (s' ++ ',' :: t) = false := by
      intro hcr
      cases s' with
      | nil => simp [headIsLF]
      | cons c2 s'' =>
        subst hcr
        by_cases hc2 : c2 = '\n'
        · subst hc2
          simp [hasCRLF, headIsLF] at h3
        · simpa [headIsLF] using hc2
    have ih2 := ih (fun hmem => h1 (List.mem_cons_of_mem _ hmem)) (hasCRLF_cons_false h3)
    rw [List.cons_append, readUnquoted_cons_content c _ hc1 hLF, ih2]

theorem readField_quoted (s t : List Char) (ht : headIsQuote t = false) :
    readField (quoteField s ++ t) = some (s, t) := by
  have hq : quoteField s ++ t = '"' :: (escQuotes s ++ '"' :: t) := by
    simp [quoteField]
  rw [hq]
  simp only [readField, if_pos rfl]
  exact readQuoted_escQuotes s t ht

theorem readField_unquoted (s t : List Char) (h1 : ',' ∉ s) (h2 : '"' ∉ s)
    (h3 : hasCRLF s = false) :
    readField (s ++ ',' :: t) = some (s, ',' :: t) := by
  cases s with
  | nil =>
    simp only [List.nil_append, readField]
    rw [if_neg (by decide), readUnquoted_comma_head]
  | cons c s' =>
    have hq : c ≠ '"' := fun hc => h2 (hc ▸ List.mem_cons_self _ _)
    simp only [List.cons_append, readField, if_neg hq]
    rw [show c :: (s' ++ ',' :: t) = (c :: s') ++ ',' :: t from rfl,
        readUnquoted_comma _ _ h1 h3]

theorem readRecordAux_step (fuel : Nat) (input f r2 : List Char)
    (hread : readField input = some (f, ',' :: r2)) :
    readRecordAux (fuel + 1) input =
      (readRecordAux fuel r2).map fun q => (f :: q.1, q.2) := by
  simp [readRecordAux, hread]

theorem readRecordAux_last (fuel : Nat) (input f r2 : List Char)
    (hread : readField input = some (f, '\r' :: '\n' :: r2)) :
    readRecordAux (fuel + 1) input = some ([f], r2) := by
  simp [readRecordAux, hread, headIsLF]

theorem digChar_clean (n : Nat) :
    digChar n ≠ ',' ∧ digChar n ≠ '"' ∧
    digChar n ≠ '\r' ∧ digChar n ≠ '\n' := by
  unfold digChar
  obtain ⟨k, hk, hke⟩ : ∃ k, k < 10 ∧ n % 10 = k :=
    ⟨n % 10, Nat.mod_lt _ (by omega), rfl⟩
  rw [hke]
  interval_cases k <;> exact ⟨by decide, by decide, by decide, by decide⟩

theorem natChars_clean :
    ∀ (fuel n : Nat) (c : Char), c ∈ natChars fuel n →
      c ≠ ',' ∧ c ≠ '"' ∧ c ≠ '\r' ∧ c ≠ '\n' := by
  intro fuel
  induction fuel with
  | zero =>
    intro n c hc
    simp [natChars] at hc
  | succ fuel ih =>
    intro n c hc
    by_cases h10 : n < 10
    · simp only [natChars, if_pos h10, List.mem_singleton] at hc
      subst hc
      exact digChar_clean n
    · simp only [natChars, if_neg h10] at hc
      rcases List.mem_append.mp hc with h | h
      · exact ih _ _ h
      · simp only [List.mem_singleton] at h
        subst h
        exact digChar_clean _

theorem hasCRLF_false_of_no_cr : ∀ (l : List Char), '\r' ∉ l → hasCRLF l = false := by
  intro l
  induction l with
  | nil => intro _; rfl
  | cons c cs ih =>
    intro h
    have hc : c ≠ '\r' := fun hh => h (hh ▸ List.mem_cons_self _ _)
    simp only [hasCRLF, if_neg hc]
    exact ih fun hm => h (List.mem_cons_of_mem _ hm)

theorem natToChars_not_comma (n : Nat) : ',' ∉ natToChars n :=
  fun h => ((natChars_clean _ _ _ h).1 rfl)

theorem natToChars_not_quote (n : Nat) : '"' ∉ natToChars n :=
  fun h => ((natChars_clean _ _ _ h).2.1 rfl)

theorem natToChars_no_crlf (n : Nat) : hasCRLF (natToChars n) = false :=
  hasCRLF_false_of_no_cr _ fun h => ((natChars_clean _ _ _ h).2.2.1 rfl)

/-- Reading one record over an exported row recovers exactly the expected
7-field tuple, leaving the rest of the input untouched. -/
theorem readRecordAux_row (fname : String) (a : Asset) (rest : List Char) (fuel : Nat)
    (hf : CleanField fname) (h1 : CleanField a.assetId) (h2 : CleanField a.assetType) :
    readRecordAux (fuel + 7) (csvRow fname a ++ rest) =
      some (expectedRecord fname a, rest) := by
  obtain ⟨hf1, hf2, hf3⟩ := hf
  obtain ⟨h11, h12, h13⟩ := h1
  obtain ⟨h21, h22, h23⟩ := h2
  have hrow : csvRow fname a ++ rest =
      fname.data ++ ',' :: (a.assetId.data ++ ',' :: (a.assetType.data ++ ',' ::
        (natToChars a.pageNumber ++ ',' :: (quoteField a.altText.data ++ ',' ::
          (quoteField (String.intercalate ", " a.keywords).data ++ ',' ::
            (quoteField a.taxonomy.data ++ '\r' :: '\n' :: rest)))))) := by
    simp [csvRow]
  rw [hrow]
  rw [show fuel + 7 = (fuel + 6) + 1 from by omega,
      readRecordAux_step _ _ _ _ (readField_unquoted _ _ hf1 hf2 hf3)]
  rw [show fuel + 6 = (fuel + 5) + 1 from by omega,
      readRecordAux_step _ _ _ _ (readField_unquoted _ _ h11 h12 h13)]
  rw [show fuel + 5 = (fuel + 4) + 1 from by omega,
      readRecordAux_step _ _ _ _ (readField_unquoted _ _ h21 h22 h23)]
  rw [show fuel + 4 = (fuel + 3) + 1 from by omega,
      readRecordAux_step _ _ _ _ (readField_unquoted _ _ (natToChars_not_comma _)
        (natToChars_not_quote _) (natToChars_no_crlf _))]
  rw [show fuel + 3 = (fuel + 2) + 1 from by omega,
      readRecordAux_step _ _ _ _ (readField_quoted _ _ (by simp [headIsQuote]))]
  rw [show fuel + 2 = (fuel + 1) + 1 from by omega,
      readRecordAux_step _ _ _ _ (readField_quoted _ _ (by simp [headIsQuote]))]
  rw [show fuel + 1 = fuel + 0 + 1 from by omega,
      readRecordAux_last _ _ _ _ (readField_quoted _ _ (by simp [headIsQuote]))]
  simp [expectedRecord]

theorem csvRow_length (fname : String) (a : Asset) : 8 ≤ (csvRow fname a).length := by
  simp [csvRow, quoteField]
  omega

theorem isEmpty_false_of_ne {α : Type} {l : List α} (h : l ≠ []) :
    l.isEmpty = false := by
  cases l with
  | nil => exact absurd rfl h
  | cons a l2 => rfl

theorem readRecords_succ_some (fuel : Nat) (input : List Char)
    (fs : List (List Char)) (rest : List Char) (hne : input ≠ [])
    (hrec : readRecordAux (input.length + 1) input = some (fs, rest)) :
    readRecords (fuel + 1) input = (readRecords fuel rest).map (fs :: ·) := by
  simp [readRecords, isEmpty_false_of_ne hne, hrec]

theorem flatMap_rows_length (fname : String) :
    ∀ (assets : List Asset),
      assets.length ≤ (assets.flatMap (csvRow fname)).length := by
  intro assets
  induction assets with
  | nil => simp
  | cons a as ih =>
    simp only [List.flatMap_cons, List.length_append, List.length_cons]
    have := csvRow_length fname a
    omega

/-- Reading records over the concatenated exported rows recovers the
expected tuples of all assets, in display order. -/
theorem readRecords_rows (fname : String) (hf : CleanField fname) :
    ∀ (assets : List Asset) (fuel : Nat),
      (∀ a ∈ assets, CleanField a.assetId ∧ CleanField a.assetType) →
      readRecords (fuel + assets.length + 1) (assets.flatMap (csvRow fname)) =
        some (assets.map (expectedRecord fname)) := by
  intro assets
  induction assets with
  | nil =>
    intro fuel _
    simp [readRecords]
  | cons a as ih =>
    intro fuel hclean
    have hlen : 8 ≤ (csvRow fname a ++ as.flatMap (csvRow fname)).length := by
      rw [List.length_append]
      have := csvRow_length fname a
      omega
    have hne : csvRow fname a ++ as.flatMap (csvRow fname) ≠ [] := by
      intro h
      rw [h] at hlen
      simp at hlen
    have hfl : fuel + (a :: as).length + 1 = (fuel + as.length + 1) + 1 := by
      simp only [List.length_cons]
      omega
    have hrec : readRecordAux
        ((csvRow fname a ++ as.flatMap (csvRow fname)).length + 1)
        (csvRow fname a ++ as.flatMap (csvRow fname)) =
        some (expectedRecord fname a, as.flatMap (csvRow fname)) := by
      rw [show (csvRow fname a ++ as.flatMap (csvRow fname)).length + 1 =
            ((csvRow fname a ++ as.flatMap (csvRow fname)).length - 6) + 7 from by
              omega]
      exact readRecordAux_row fname a _ _ ⟨hf.1, hf.2.1, hf.2.2⟩
        (hclean a (List.mem_cons_self _ _)).1 (hclean a (List.mem_cons_self _ _)).2
    rw [show (a :: as).flatMap (csvRow fname) =
          csvRow fname a ++ as.flatMap (csvRow fname) from by simp, hfl,
        readRecords_succ_some _ _ _ _ hne hrec,
        ih fuel (fun b hb => hclean b (List.mem_cons_of_mem _ hb))]
    simp

theorem dropWhile_header (s : List Char) (h : '\n' ∉ s) (rest : List Char) :
    List.dropWhile (· ≠ '\n') (s ++ '\n' :: rest) = '\n' :: rest := by
  induction s with
  | nil => simp [List.dropWhile_cons]
  | cons c s' ih =>
    have hc : c ≠ '\n' := fun hh => h (hh ▸ List.mem_cons_self _ _)
    simp only [List.cons_append, List.dropWhile_cons]
    rw [if_pos (by simp [hc])]
    exact ih fun hm => h (List.mem_cons_of_mem _ hm)

/-- C7 (amended): the CSV export begins with the exact header row
terminated by a newline, and — for a filename and assets whose `assetId`
and `assetType` contain no comma, no double quote, and no CRLF pair
(`pageNumber` is numeric, hence always clean) — parsing the exported CSV
with a standard CSV reader recovers exactly the in-memory
`(filename, assetId, assetType, pageNumber, altText, keywords joined,
taxonomy)` tuples, one per asset in display order, with `altText`,
`keywords` and `taxonomy` arbitrary. -/
theorem c7_csv_roundtrip (fname : String) (assets : List Asset)
    (hf : CleanField fname)
    (hclean : ∀ a ∈ assets, CleanField a.assetId ∧ CleanField a.assetType) :
    (handleExportCsv fname assets).take (csvHeader.length + 1) = csvHeader ++ ['\n'] ∧
    parseCsv (handleExportCsv fname assets) = some (assets.map (expectedRecord fname)) := by
  constructor
  · rw [show handleExportCsv fname assets =
          (csvHeader ++ ['\n']) ++ assets.flatMap (csvRow fname) from by
            simp [handleExportCsv],
        show csvHeader.length + 1 = (csvHeader ++ ['\n']).length from by simp]
    exact List.take_left _ _
  · simp only [parseCsv, handleExportCsv]
    rw [dropWhile_header csvHeader (by decide) _]
    simp only [List.drop_succ_cons, List.drop_zero]
    have hge := flatMap_rows_length fname assets
    rw [show (assets.flatMap (csvRow fname)).length + 1 =
          ((assets.flatMap (csvRow fname)).length - assets.length) +
            assets.length + 1 from by omega]
    exact readRecords_rows fname hf assets _ hclean

/-- The witness asset for C7: clean `assetId`/`assetType`; `altText`
exercises embedded quote and comma, `keywords` has two entries. -/
def c7Good : Asset :=
  ⟨0, "Fig 1", "Figure", 12, "pv", "al\"t, x", ["k1", "k2"], "T -> U", none⟩

/-- Witness for C7 at a concrete one-asset collection. -/
theorem c7_csv_roundtrip_witness :
    CleanField "doc.pdf" ∧
    (∀ a ∈ [c7Good], CleanField a.assetId ∧ CleanField a.assetType) ∧
    ((handleExportCsv "doc.pdf" [c7Good]).take (csvHeader.length + 1) =
        csvHeader ++ ['\n'] ∧
     parseCsv (handleExportCsv "doc.pdf" [c7Good]) =
        some ([c7Good].map (expectedRecord "doc.pdf"))) :=
  ⟨by decide, by decide, c7_csv_roundtrip "doc.pdf" [c7Good] (by decide) (by decide)⟩

/-- An asset whose `assetId` contains a CRLF pair but no quote and no
comma — allowed by the claim's hypothesis as stated. -/
def c7Bad : Asset :=
  ⟨0, "A\r\nB", "Figure", 1, "pv", "alt", ["k"], "tax", none⟩

/-- C7 fails as stated: an `assetId` containing a CRLF pair (no double
quote, no comma — so permitted by the claim's hypothesis) is written
unquoted into the row, the embedded CRLF reads as a record boundary, and
parsing the export does not recover the in-memory tuples. -/
theorem c7_counterexample :
    (',' ∉ c7Bad.assetId.data ∧ '"' ∉ c7Bad.assetId.data) ∧
    (',' ∉ c7Bad.assetType.data ∧ '"' ∉ c7Bad.assetType.data) ∧
    parseCsv (handleExportCsv "f" [c7Bad]) ≠
      some ([c7Bad].map (expectedRecord "f")) := by
  exact ⟨by decide, by decide, by decide⟩

end AITools
